import Mathlib

/-!
# DeadInstrumenter: marker instrumentation rule engine

A shallow embedding of `src/live_instrumenter/src/DeadInstrumenter.cpp`.

The program is written against clang's AST matcher, Transformer and tooling
libraries.  Functions defined in the source file are embedded here under
their own names.  The services of the libraries they call (source manager,
lexer, replacement sets) are taken as fields of record types, so every
theorem below holds for each behaviour those services can have; small
concrete instances of the services are given for evaluating examples.
-/

namespace dead

/-! ## Locations, ranges and syntax nodes -/

/-- Enum `EditMetadataKind` of the source (line 33). -/
inductive EditMetadataKind where
  | MarkerDecl
  | MarkerCall
  deriving DecidableEq, Repr

/-- A clang source location: a raw 32 bit encoding whose top bit tells
whether the location is inside a macro expansion. -/
structure SourceLocation where
  ID : Nat
  deriving DecidableEq, Repr

/-- Test `SourceLocation::isMacroID`: the top bit of the encoding is set. -/
def SourceLocation.isMacroID (L : SourceLocation) : Bool :=
  (L.ID / 2 ^ 31) % 2 == 1

/-- Method `SourceLocation::getLocWithOffset` for a non-negative offset. -/
def SourceLocation.getLocWithOffset (L : SourceLocation) (n : Nat) : SourceLocation :=
  ⟨L.ID + n⟩

/-- A clang `CharSourceRange`: two locations and the token-range flag. -/
structure CharSourceRange where
  Begin : SourceLocation
  End : SourceLocation
  IsTokenRange : Bool
  deriving DecidableEq, Repr

/-- Constructor `CharSourceRange::getTokenRange`. -/
def CharSourceRange.getTokenRange (B E : SourceLocation) : CharSourceRange :=
  ⟨B, E, true⟩

/-- Constructor `CharSourceRange::getCharRange`. -/
def CharSourceRange.getCharRange (B E : SourceLocation) : CharSourceRange :=
  ⟨B, E, false⟩

/-- Method `CharSourceRange::setEnd`. -/
def CharSourceRange.setEnd (R : CharSourceRange) (E : SourceLocation) : CharSourceRange :=
  { R with End := E }

/-- Statement classes the rules distinguish. -/
inductive StmtClass where
  | CompoundStmt
  | ReturnStmt
  | IfStmt
  | SwitchStmt
  | ForStmt
  | WhileStmt
  | DoStmt
  | CXXForRangeStmt
  | SwitchCase
  | Other
  deriving DecidableEq, Repr

/-- The part of a clang `Stmt` the rules read: its class, its begin and end
locations and, for a return statement, whether `getRetValue()` is non-null. -/
structure Stmt where
  cls : StmtClass
  BeginLoc : SourceLocation
  EndLoc : SourceLocation
  hasRetValue : Bool
  deriving DecidableEq, Repr

/-- A clang `IfStmt` as the if rule reads it. -/
structure IfStmt where
  BeginLoc : SourceLocation
  EndLoc : SourceLocation
  RParenLoc : SourceLocation
  ElseLoc : SourceLocation
  Then : Stmt
  Else : Option Stmt
  deriving DecidableEq, Repr

/-- A loop statement (`for`, `while`, `do`, range-`for`) as the loop rule
reads it; `DoLoc` and `WhileLoc` are meaningful for `DoStmt` only. -/
structure LoopStmt where
  cls : StmtClass
  BeginLoc : SourceLocation
  EndLoc : SourceLocation
  DoLoc : SourceLocation
  WhileLoc : SourceLocation
  Body : Stmt
  deriving DecidableEq, Repr

/-- Storage class specifier of a declaration (clang `StorageClass`). -/
inductive StorageClass where
  | SC_None
  | SC_Extern
  | SC_Static
  | SC_PrivateExtern
  | SC_Auto
  | SC_Register
  deriving DecidableEq, Repr

/-- Declaration kinds the Global-to-Static matcher distinguishes. -/
inductive DeclKind where
  | Var
  | Function
  | Other
  deriving DecidableEq, Repr

/-- Linkage of a declared entity. -/
inductive Linkage where
  | External
  | Internal
  | NoLinkage
  deriving DecidableEq, Repr

/-- The facts about a clang `Decl` that `globalizeRule` reads
(`hasGlobalStorage`, `getStorageClass`, `isThisDeclarationADefinition`,
`isMain`, begin location), together with the scope and linkage facts the
specification speaks about. -/
structure Decl where
  kind : DeclKind
  BeginLoc : SourceLocation
  EndLoc : SourceLocation
  hasGlobalStorage : Bool
  StorageClass : StorageClass
  isDefinition : Bool
  isMain : Bool
  isFileScope : Bool
  linkage : Linkage
  deriving DecidableEq, Repr

/-- A clang `DynTypedNode`: a node of one of the modelled kinds. -/
inductive DynTypedNode where
  | stmt (S : Stmt)
  | ifStmt (S : IfStmt)
  | loop (S : LoopStmt)
  | decl (D : Decl)
  deriving DecidableEq, Repr

/-- Query `Node.get<ReturnStmt>()`: the node viewed as a return statement,
when it is one. -/
def DynTypedNode.getReturnStmt : DynTypedNode → Option Stmt
  | .stmt S => if S.cls = StmtClass.ReturnStmt then some S else none
  | _ => none

/-- Query `Node.get<DoStmt>()`. -/
def DynTypedNode.getDoStmt : DynTypedNode → Option LoopStmt
  | .loop S => if S.cls = StmtClass.DoStmt then some S else none
  | _ => none

/-- Query `Node.get<CompoundStmt>()`. -/
def DynTypedNode.getCompoundStmt : DynTypedNode → Option Stmt
  | .stmt S => if S.cls = StmtClass.CompoundStmt then some S else none
  | _ => none

/-- Source range `getSourceRange()` of a node: begin and end locations. -/
def DynTypedNode.getSourceRange : DynTypedNode → SourceLocation × SourceLocation
  | .stmt S => (S.BeginLoc, S.EndLoc)
  | .ifStmt S => (S.BeginLoc, S.EndLoc)
  | .loop S => (S.BeginLoc, S.EndLoc)
  | .decl D => (D.BeginLoc, D.EndLoc)

/-! ## Services consumed from clang -/

/-- Token kinds the range extension asks the lexer about. -/
inductive TokenKind where
  | comment
  | semi
  | eof
  | other
  deriving DecidableEq, Repr

/-- The services of clang's `SourceManager` used by the source. -/
structure SourceManager where
  getSpellingLoc : SourceLocation → SourceLocation
  getExpansionLoc : SourceLocation → SourceLocation
  getExpansionRange : CharSourceRange → CharSourceRange
  getDecomposedLoc : SourceLocation → Nat × Nat
  getFileEntryName : Nat → Option String
  isInMainFile : SourceLocation → Bool
  getCharacterData : SourceLocation → Option (List Char)

/-- The services reached through clang's `ASTContext`: the source manager,
the diagnostics flag, and the lexer and tooling helpers. -/
structure ASTContext where
  SM : SourceManager
  hasErrorOccurred : Bool
  maybeExtendRange : CharSourceRange → TokenKind → CharSourceRange
  getLocForEndOfToken : SourceLocation → SourceLocation
  MeasureTokenLength : SourceLocation → Nat
  getRangeForEdit : CharSourceRange → Option CharSourceRange

/-! ## Range extension (source lines 113 to 143) -/

/-- The string literal `"return"` of `handleReturnStmts`. -/
def Return : List Char := "return".data

/-- Read `p[i]` of a NUL-terminated character buffer. -/
def charAt (p : List Char) (i : Nat) : Char := p.getD i (Char.ofNat 0)

/-- The loop `for (int i = 0; i < 5; ++i) if (Char[i] != Return[i]) return End;`
started at index `i` with `n` iterations left; `true` means the early
`return End` was taken. -/
def returnLoop (Char : List Char) (i : Nat) : Nat → Bool
  | 0 => false
  | n + 1 => if charAt Char i ≠ charAt Return i then true else returnLoop Char (i + 1) n

/-- Function `handleReturnStmts` (lines 113 to 132). -/
def handleReturnStmts (Node : DynTypedNode) (End : SourceLocation)
    (SM : SourceManager) : SourceLocation :=
  match Node.getReturnStmt with
  | some Ret =>
    if Ret.hasRetValue then End
    else End.getLocWithOffset 7
  | none =>
    match SM.getCharacterData End with
    | none => End
    | some Char =>
      if returnLoop Char 0 5 then End
      else End.getLocWithOffset 7

/-- Function `getExtendedRangeWithCommentsAndSemi` (lines 134 to 143). -/
def getExtendedRangeWithCommentsAndSemi (Node : DynTypedNode)
    (Context : ASTContext) : CharSourceRange :=
  let SM := Context.SM
  let Range := CharSourceRange.getTokenRange Node.getSourceRange.1 Node.getSourceRange.2
  let Range := SM.getExpansionRange Range
  let Range := Range.setEnd (handleReturnStmts Node Range.End SM)
  let Range := Context.maybeExtendRange Range TokenKind.comment
  Context.maybeExtendRange Range TokenKind.semi

/-- The reference definition of `handleReturnStmts`, case by case: a
return statement with a value keeps `End`, one without a
value gets `End + 7`; any other node keeps `End` when the character data is
invalid and otherwise gets `End + 7` exactly when the first five characters
at `End` are r, e, t, u, r. -/
def handleReturnStmts_reference (Node : DynTypedNode) (End : SourceLocation)
    (SM : SourceManager) : SourceLocation :=
  match Node.getReturnStmt with
  | some Ret => if Ret.hasRetValue then End else ⟨End.ID + 7⟩
  | none =>
    match SM.getCharacterData End with
    | none => End
    | some Char =>
      if charAt Char 0 = 'r' ∧ charAt Char 1 = 'e' ∧ charAt Char 2 = 't' ∧
          charAt Char 3 = 'u' ∧ charAt Char 4 = 'r' then ⟨End.ID + 7⟩
      else End

/-- Whether a character can continue a C identifier. -/
def isIdentChar (c : Char) : Bool :=
  c.isAlphanum || c == '_'

/-- The text starts with the keyword token `return`: the six letters, not
followed by a character that would continue an identifier. -/
def isReturnToken (Char : List Char) : Bool :=
  Char.take 6 == Return && !isIdentChar (charAt Char 6)

/-! ## The Transformer library as the rules use it -/

/-- Values of type `llvm::Expected<T>`: a result or an error message. -/
abbrev Expected (α : Type) := Except String α

deriving instance DecidableEq for Except

/-- The bound nodes of a match: capture name to node. -/
abbrev BoundNodes := List (String × DynTypedNode)

/-- A clang `MatchFinder::MatchResult`: the bound nodes and the context
(which holds the source manager). -/
structure MatchResult where
  Nodes : BoundNodes
  Context : ASTContext

/-- A `transformer::Edit`: a resolved range, the replacement text and the
metadata, which is `some k` when the `llvm::Any` holds an `EditMetadataKind`. -/
structure Edit where
  Range : CharSourceRange
  Replacement : String
  Metadata : Option EditMetadataKind
  deriving DecidableEq, Repr

/-- A `transformer::RangeSelector`. -/
abbrev RangeSelector := MatchResult → Expected CharSourceRange

/-- A `transformer::EditGenerator`. -/
abbrev EditGenerator := MatchResult → Expected (List Edit)

/-- A `transformer::ASTEdit`; the text generators of the source are all
constant (`cat` of a literal), and so are its metadata generators. -/
structure ASTEdit where
  TargetRange : RangeSelector
  Replacement : String
  Metadata : Option EditMetadataKind

/-- Selector `transformer::before`: the empty range at the start. -/
def before (Selector : RangeSelector) : RangeSelector := fun Result =>
  match Selector Result with
  | .error e => .error e
  | .ok R => .ok (CharSourceRange.getCharRange R.Begin R.Begin)

/-- Selector `transformer::after`: the empty range just past the end, which
for a token range is the end of its last token. -/
def after (Selector : RangeSelector) : RangeSelector := fun Result =>
  match Selector Result with
  | .error e => .error e
  | .ok R =>
    if R.IsTokenRange then
      let E := Result.Context.getLocForEndOfToken R.End
      .ok (CharSourceRange.getCharRange E E)
    else .ok (CharSourceRange.getCharRange R.End R.End)

/-- Edit `transformer::changeTo(Target, cat(Text))`. -/
def changeTo (Target : RangeSelector) (Text : String) : ASTEdit :=
  ⟨Target, Text, none⟩

/-- Edit `transformer::insertBefore`. -/
def insertBefore (S : RangeSelector) (Text : String) : ASTEdit :=
  changeTo (before S) Text

/-- Edit `transformer::insertAfter`. -/
def insertAfter (S : RangeSelector) (Text : String) : ASTEdit :=
  changeTo (after S) Text

/-- Wrapper `transformer::withMetadata` with a constant metadata value. -/
def withMetadata (E : ASTEdit) (k : EditMetadataKind) : ASTEdit :=
  { E with Metadata := some k }

/-- The library's `translateEdits`: resolve each edit in turn; an error of a
range selector fails the whole list, and a range that cannot be edited makes
the whole list empty. -/
def translateEdits (Result : MatchResult) : List ASTEdit → List Edit → Expected (List Edit)
  | [], Edits => .ok Edits
  | E :: rest, Edits =>
    match E.TargetRange Result with
    | .error e => .error e
    | .ok Range =>
      match Result.Context.getRangeForEdit Range with
      | none => .ok []
      | some EditRange =>
        translateEdits Result rest (Edits ++ [⟨EditRange, E.Replacement, E.Metadata⟩])

/-- Generator `transformer::editList`. -/
def editList (Edits : List ASTEdit) : EditGenerator := fun Result =>
  translateEdits Result Edits []

/-- Generator `transformer::edit`. -/
def edit (E : ASTEdit) : EditGenerator := editList [E]

/-- Generator `transformer::noEdits`. -/
def noEdits : EditGenerator := fun _ => .ok []

/-- The concatenating loop of `transformer::flattenVector`. -/
def flattenLoop (Result : MatchResult) : List EditGenerator → List Edit → Expected (List Edit)
  | [], AllEdits => .ok AllEdits
  | G :: Gs, AllEdits =>
    match G Result with
    | .error e => .error e
    | .ok Edits => flattenLoop Result Gs (AllEdits ++ Edits)

/-- Generator `transformer::flattenVector`. -/
def flattenVector (Generators : List EditGenerator) : EditGenerator := fun Result =>
  flattenLoop Result Generators []

/-- Whether capture `ID` is bound in the match. -/
def isBound (Nodes : BoundNodes) (ID : String) : Bool :=
  (Nodes.lookup ID).isSome

/-- Generator `transformer::ifBound`. -/
def ifBound (ID : String) (TrueG FalseG : EditGenerator) : EditGenerator := fun Result =>
  if isBound Result.Nodes ID then TrueG Result else FalseG Result

/-! ## Helpers of the source (lines 34 to 40 and 84 to 158) -/

/-- Function `GetFilenameFromRange` (lines 34 to 40). -/
def GetFilenameFromRange (R : CharSourceRange) (SM : SourceManager) : String :=
  let DecomposedLocation := SM.getDecomposedLoc (SM.getSpellingLoc R.Begin)
  match SM.getFileEntryName DecomposedLocation.1 with
  | some name => name
  | none => ""

/-- Matcher `isExtern` (lines 84 to 88): `VarDecl::hasExternalStorage`. -/
def isExtern (D : Decl) : Bool :=
  D.StorageClass == StorageClass.SC_Extern || D.StorageClass == StorageClass.SC_PrivateExtern

/-- Matcher `notInMacro` (lines 90 to 94). -/
def notInMacro (Node : Stmt) : Bool :=
  !Node.BeginLoc.isMacroID && !Node.EndLoc.isMacroID

/-- Function `getNode` (lines 96 to 104). -/
def getNode (Nodes : BoundNodes) (ID : String) : Expected DynTypedNode :=
  match Nodes.lookup ID with
  | none => .error (ID ++ "not bound")
  | some N => .ok N

/-- Function `addMarker` (lines 106 to 111). -/
def addMarker (E : ASTEdit) : ASTEdit :=
  withMetadata E EditMetadataKind.MarkerCall

/-- Selector `statementWithMacrosExpanded` (lines 145 to 158). -/
def statementWithMacrosExpanded (ID : String) : RangeSelector := fun Result =>
  match getNode Result.Nodes ID with
  | .error e => .error e
  | .ok Node =>
    let SM := Result.Context.SM
    .ok (SM.getExpansionRange (getExtendedRangeWithCommentsAndSemi Node Result.Context))

/-- Matcher `isExpansionInMainFile` of clang, on a begin location. -/
def isExpansionInMainFile (SM : SourceManager) (BeginLoc : SourceLocation) : Bool :=
  SM.isInMainFile (SM.getExpansionLoc BeginLoc)

/-- Matcher `inMainAndNotMacro` (line 160). -/
def inMainAndNotMacro (SM : SourceManager) (Node : Stmt) : Bool :=
  notInMacro Node && isExpansionInMainFile SM Node.BeginLoc

/-- Selector `transformer::statements`: the text between the braces of a
compound statement; a type error for any other node. -/
def statements (ID : String) : RangeSelector := fun Result =>
  match getNode Result.Nodes ID with
  | .error e => .error e
  | .ok Node =>
    match Node.getCompoundStmt with
    | none => .error (ID ++ ": mismatched type (node is not a CompoundStmt)")
    | some CS => .ok (CharSourceRange.getCharRange (CS.BeginLoc.getLocWithOffset 1) CS.EndLoc)

/-- Selector `transformer::node`: the token range of the node extended over
a trailing semicolon (expression nodes are not told apart in this embedding;
the source applies `node` to the declaration bound as `global` only). -/
def node (ID : String) : RangeSelector := fun Result =>
  match getNode Result.Nodes ID with
  | .error e => .error e
  | .ok Node =>
    .ok (Result.Context.maybeExtendRange
      (CharSourceRange.getTokenRange Node.getSourceRange.1 Node.getSourceRange.2)
      TokenKind.semi)

/-! ## The statement rules (lines 185 to 280) -/

/-- Function `InstrumentCStmt` (lines 185 to 187). -/
def InstrumentCStmt (id : String) : ASTEdit :=
  addMarker (insertBefore (statements id) "")

/-- Function `InstrumentNonCStmt` (lines 189 to 194). -/
def InstrumentNonCStmt (id : String) : EditGenerator :=
  flattenVector
    [edit (addMarker (insertBefore (statementWithMacrosExpanded id) "\x7b")),
     edit (insertAfter (statementWithMacrosExpanded id) "\n\x7d")]

/-- Matcher `RParenNotInMacroAndInMain` (lines 204 to 210). -/
def RParenNotInMacroAndInMain (SM : SourceManager) (Node : IfStmt) : Bool :=
  let RParenLoc := Node.RParenLoc
  !RParenLoc.isMacroID && SM.isInMainFile (SM.getExpansionLoc RParenLoc)

/-- Matcher `ElseNotInMacroAndInMain` (lines 212 to 217). -/
def ElseNotInMacroAndInMain (SM : SourceManager) (Node : IfStmt) : Bool :=
  let ElseLoc := Node.ElseLoc
  !ElseLoc.isMacroID && SM.isInMainFile (SM.getExpansionLoc ElseLoc)

/-- The bindings of the sub-matcher
`optionally(hasElse(anyOf(compoundStmt(inMainAndNotMacro).bind("celse"),
stmt(hasParent(ifStmt(ElseNotInMacroAndInMain()))).bind("else"))))`
(lines 222 to 224); it always matches. -/
def elseBindings (SM : SourceManager) (Node : IfStmt) : BoundNodes :=
  match Node.Else with
  | none => []
  | some E =>
    if E.cls = StmtClass.CompoundStmt ∧ inMainAndNotMacro SM E = true then
      [("celse", DynTypedNode.stmt E)]
    else if ElseNotInMacroAndInMain SM Node = true then
      [("else", DynTypedNode.stmt E)]
    else []

/-- The bindings of the sub-matcher
`hasThen(anyOf(compoundStmt(inMainAndNotMacro).bind("cthen"), stmt().bind("then")))`
(lines 225 to 226); it always matches. -/
def thenBindings (SM : SourceManager) (Node : IfStmt) : BoundNodes :=
  if Node.Then.cls = StmtClass.CompoundStmt ∧ inMainAndNotMacro SM Node.Then = true then
    [("cthen", DynTypedNode.stmt Node.Then)]
  else
    [("then", DynTypedNode.stmt Node.Then)]

/-- The matcher of `instrumentIfStmt` (lines 220 to 226): the bound nodes
when the if statement matches. -/
def instrumentIfStmt_matcher (SM : SourceManager) (Node : IfStmt) : Option BoundNodes :=
  if RParenNotInMacroAndInMain SM Node then
    some (elseBindings SM Node ++ thenBindings SM Node)
  else none

/-- The actions of `instrumentIfStmt` (lines 227 to 233). -/
def instrumentIfStmt_actions : EditGenerator :=
  flattenVector
    [ifBound "cthen" (edit (InstrumentCStmt "cthen")) noEdits,
     ifBound "celse" (edit (InstrumentCStmt "celse")) noEdits,
     ifBound "then" (InstrumentNonCStmt "then") noEdits,
     ifBound "else" (InstrumentNonCStmt "else") noEdits]

/-- Selector `doStmtWhile` (lines 237 to 249); the source dereferences
`Node->get<DoStmt>()` unchecked, which the rule only reaches with a do
statement bound. -/
def doStmtWhile (ID : String) : RangeSelector := fun Result =>
  match getNode Result.Nodes ID with
  | .error e => .error e
  | .ok Node =>
    match Node.getDoStmt with
    | none => .error "null DoStmt"
    | some D =>
      let SM := Result.Context.SM
      .ok (SM.getExpansionRange (CharSourceRange.getTokenRange D.WhileLoc D.WhileLoc))

/-- Matcher `DoAndWhileNotMacroAndInMain` (lines 251 to 259). -/
def DoAndWhileNotMacroAndInMain (SM : SourceManager) (Node : LoopStmt) : Bool :=
  let DoLoc := Node.DoLoc
  let WhileLoc := Node.WhileLoc
  !Node.DoLoc.isMacroID && !Node.WhileLoc.isMacroID &&
    SM.isInMainFile (SM.getExpansionLoc DoLoc) &&
    SM.isInMainFile (SM.getExpansionLoc WhileLoc)

/-- The loop statement viewed as a plain statement. -/
def LoopStmt.toStmt (L : LoopStmt) : Stmt :=
  ⟨L.cls, L.BeginLoc, L.EndLoc, false⟩

/-- Matcher `compoundMatcher` of `instrumentLoop` (lines 262 to 265). -/
def compoundMatcher (SM : SourceManager) (Node : LoopStmt) : Option BoundNodes :=
  if (Node.cls = StmtClass.ForStmt ∨ Node.cls = StmtClass.WhileStmt ∨
        Node.cls = StmtClass.DoStmt ∨ Node.cls = StmtClass.CXXForRangeStmt) ∧
      inMainAndNotMacro SM Node.toStmt = true ∧
      Node.Body.cls = StmtClass.CompoundStmt ∧ inMainAndNotMacro SM Node.Body = true then
    some [("body", DynTypedNode.stmt Node.Body)]
  else none

/-- Matcher `nonCompoundDoWhileMatcher` of `instrumentLoop` (lines 266 to 268). -/
def nonCompoundDoWhileMatcher (SM : SourceManager) (Node : LoopStmt) : Option BoundNodes :=
  if Node.cls = StmtClass.DoStmt ∧ DoAndWhileNotMacroAndInMain SM Node = true then
    some [("body", DynTypedNode.stmt Node.Body), ("dostmt", DynTypedNode.loop Node)]
  else none

/-- The edit list `doWhileAction` of `instrumentLoop` (lines 269 to 271). -/
def doWhileAction : List ASTEdit :=
  [addMarker (insertBefore (statementWithMacrosExpanded "body") "\x7b"),
   insertBefore (doStmtWhile "dostmt") "\n\x7d"]

/-- Matcher `nonCompoundLoopMatcher` of `instrumentLoop` (lines 272 to 275). -/
def nonCompoundLoopMatcher (SM : SourceManager) (Node : LoopStmt) : Option BoundNodes :=
  if (Node.cls = StmtClass.ForStmt ∨ Node.cls = StmtClass.WhileStmt ∨
        Node.cls = StmtClass.CXXForRangeStmt) ∧
      inMainAndNotMacro SM Node.toStmt = true ∧ inMainAndNotMacro SM Node.Body = true then
    some [("body", DynTypedNode.stmt Node.Body)]
  else none

/-- Rule `instrumentLoop` (lines 261 to 280): `applyFirst` selects the first
of the three rules whose matcher matches, giving its bound nodes and edit
generator. -/
def instrumentLoop (SM : SourceManager) (Node : LoopStmt) : Option (BoundNodes × EditGenerator) :=
  match compoundMatcher SM Node with
  | some Nodes => some (Nodes, edit (InstrumentCStmt "body"))
  | none =>
    match nonCompoundDoWhileMatcher SM Node with
    | some Nodes => some (Nodes, editList doWhileAction)
    | none =>
      match nonCompoundLoopMatcher SM Node with
      | some Nodes => some (Nodes, InstrumentNonCStmt "body")
      | none => none

/-! ## Replacements and the edit collector (lines 43 to 74) -/

/-- A `tooling::Replacement`: file path, offset, length, replacement text. -/
structure Replacement where
  FilePath : String
  Offset : Nat
  Length : Nat
  ReplacementText : String
  deriving DecidableEq, Repr

/-- The library's `getRangeSize`: the distance between the decomposed
spelling locations of the two ends, plus the length of the last token for a
token range; `-1` (as an `unsigned`) when the ends lie in different files. -/
def getRangeSize (Context : ASTContext) (Range : CharSourceRange) : Nat :=
  let SpellingBegin := Context.SM.getSpellingLoc Range.Begin
  let SpellingEnd := Context.SM.getSpellingLoc Range.End
  let Start := Context.SM.getDecomposedLoc SpellingBegin
  let End := Context.SM.getDecomposedLoc SpellingEnd
  if Start.1 ≠ End.1 then 2 ^ 32 - 1
  else
    let EndOffset :=
      if Range.IsTokenRange then End.2 + Context.MeasureTokenLength SpellingEnd else End.2
    (EndOffset + 2 ^ 32 - Start.2 % 2 ^ 32) % 2 ^ 32

/-- Constructor `Replacement(SM, Range, Text)` of the library: file and
offset of the spelling location of the begin, size of the range. -/
def Replacement.ofRange (Context : ASTContext) (Range : CharSourceRange)
    (Text : String) : Replacement :=
  let Start := Context.SM.getSpellingLoc Range.Begin
  let DecomposedLocation := Context.SM.getDecomposedLoc Start
  { FilePath :=
      match Context.SM.getFileEntryName DecomposedLocation.1 with
      | some name => name
      | none => ""
    Offset := DecomposedLocation.2
    Length := getRangeSize Context Range
    ReplacementText := Text }

/-- Expression `FileToNumberMarkerDecls[File]++` on the per-file counter map:
the old value (0 for a file not yet present) and the updated map.  The map
is kept as an association list with one entry per file; `std::map` visits
its entries in key order, on which nothing below depends, since every entry
concerns its own file only. -/
def postIncrement : List (String × Nat) → String → Nat × List (String × Nat)
  | [], File => (0, [(File, 1)])
  | (F, n) :: rest, File =>
    if F = File then (n, (F, n + 1) :: rest)
    else ((postIncrement rest File).1, (F, n) :: (postIncrement rest File).2)

/-- The state shared by the edit collectors: the vector `Replacements` and
the map `FileToNumberMarkerDecls`. -/
structure CollectorState where
  Replacements : List Replacement
  FileToNumberMarkerDecls : List (String × Nat)
  deriving DecidableEq, Repr

/-- The test `isMarker` of `RuleActionEditCollector::run` (lines 59 to 64). -/
def isMarker (T : Edit) : Bool :=
  match T.Metadata with
  | some k => k == EditMetadataKind.MarkerCall
  | none => false

/-- One iteration of the loop of `RuleActionEditCollector::run` (lines 57 to 73). -/
def collectEdit (Context : ASTContext) (st : CollectorState) (T : Edit) : CollectorState :=
  if isMarker T then
    let N := (postIncrement st.FileToNumberMarkerDecls (GetFilenameFromRange T.Range Context.SM)).1
    { Replacements := st.Replacements ++
        [Replacement.ofRange Context T.Range (T.Replacement ++ "marker_" ++ toString N ++ "();")]
      FileToNumberMarkerDecls :=
        (postIncrement st.FileToNumberMarkerDecls (GetFilenameFromRange T.Range Context.SM)).2 }
  else
    { st with Replacements := st.Replacements ++
        [Replacement.ofRange Context T.Range T.Replacement] }

/-- Method `RuleActionEditCollector::run` (lines 43 to 74); `Rule` stands for
`findSelectedCase(Result, Rule).Edits`.  The `assert` on the edit kind is left
out: every edit of the rules is a range edit. -/
def RuleActionEditCollector.run (Rule : EditGenerator) (Result : MatchResult)
    (st : CollectorState) : CollectorState :=
  if Result.Context.hasErrorOccurred then st
  else
    match Rule Result with
    | .error _ => st
    | .ok Edits => Edits.foldl (collectEdit Result.Context) st

/-- A run of the collectors over the matches the finder reports, in order. -/
def collectAll (Matches : List (EditGenerator × MatchResult)) (st : CollectorState) :
    CollectorState :=
  Matches.foldl (fun st m => RuleActionEditCollector.run m.1 m.2 st) st

/-- The if rule at one if statement: the collector runs when the matcher matches. -/
def runIfRule (Context : ASTContext) (Node : IfStmt) (st : CollectorState) : CollectorState :=
  match instrumentIfStmt_matcher Context.SM Node with
  | none => st
  | some Nodes => RuleActionEditCollector.run instrumentIfStmt_actions ⟨Nodes, Context⟩ st

/-- The loop rule at one loop statement. -/
def runLoopRule (Context : ASTContext) (Node : LoopStmt) (st : CollectorState) : CollectorState :=
  match instrumentLoop Context.SM Node with
  | none => st
  | some sel => RuleActionEditCollector.run sel.2 ⟨sel.1, Context⟩ st

/-! ## Marker declarations and the replacement merger (lines 321 to 354) -/

/-- The lambda `gen` of `applyReplacements` (lines 324 to 327) with its
captured counter `i`: the text produced and the counter afterwards. -/
def gen (i : Nat) : String × Nat :=
  let index := i
  ("void  __attribute__ ((noinline)) marker_" ++ toString i ++ "(void) \x7b printf(\" b" ++
    toString index ++ "b \");\x7d \n", i + 1)

/-- The call `std::generate_n(ostream_iterator(ss), n, gen)`: `n` calls of
`gen`, each output appended to the stream `ss`. -/
def generate_n : Nat → Nat → String → String
  | 0, _, ss => ss
  | n + 1, i, ss => generate_n n (gen i).2 (ss ++ (gen i).1)

/-- The string `Decls` built for a file with `NumberMarkerDecls` markers. -/
def Decls (NumberMarkerDecls : Nat) : String :=
  generate_n NumberMarkerDecls 0 ""

/-- The replacement `R` of line 331. -/
def declReplacement (File : String) (NumberMarkerDecls : Nat) : Replacement :=
  ⟨File, 0, 0, Decls NumberMarkerDecls⟩

/-- The operations of `tooling::Replacements` used by the source. -/
structure ReplacementsOps (Rs : Type) where
  empty : Rs
  single : Replacement → Rs
  add : Rs → Replacement → Except String Rs
  getShiftedCodePosition : Rs → Nat → Nat
  merge : Rs → Rs → Rs

/-- The map `FileToReplacements`. -/
abbrev FileMap (Rs : Type) := List (String × Rs)

/-- Lookup `FileToReplacements[File]`, default-constructed when absent. -/
def FileMap.get {Rs : Type} (ops : ReplacementsOps Rs) (m : FileMap Rs) (File : String) : Rs :=
  match m.lookup File with
  | some rs => rs
  | none => ops.empty

/-- Assignment to `FileToReplacements[File]`. -/
def FileMap.set {Rs : Type} : FileMap Rs → String → Rs → FileMap Rs
  | [], File, rs => [(File, rs)]
  | (F, old) :: rest, File, rs =>
    if F = File then (F, rs) :: rest else (F, old) :: FileMap.set rest File rs

/-- The value `NewLength` of lines 342 to 344 and 394 to 396, in `unsigned`
(32 bit) arithmetic. -/
def shiftedLength {Rs : Type} (ops : ReplacementsOps Rs) (Replacements : Rs)
    (R : Replacement) : Nat :=
  let NewOffset := ops.getShiftedCodePosition Replacements R.Offset % 2 ^ 32
  (ops.getShiftedCodePosition Replacements ((R.Offset + R.Length) % 2 ^ 32) % 2 ^ 32
    + 2 ^ 32 - NewOffset) % 2 ^ 32

/-- The replacement re-based to the shifted offset (lines 346 and 398). -/
def rebased {Rs : Type} (ops : ReplacementsOps Rs) (Replacements : Rs)
    (R : Replacement) : Replacement :=
  ⟨R.FilePath, ops.getShiftedCodePosition Replacements R.Offset % 2 ^ 32,
    shiftedLength ops Replacements R, R.ReplacementText⟩

/-- The body shared by the two add loops (lines 339 to 352 and 391 to 404):
add `R` to the set of its file; when the set rejects it, merge the re-based
replacement if the shifted length is the original one, and abort
(`llvm_unreachable`) otherwise.  Gives the new set and the value of `R`.
The `llvm::Error` that goes out of scope on the merge path is taken to be
dropped silently, as it is in a library built without ABI-breaking checks. -/
def addOrMerge {Rs : Type} (ops : ReplacementsOps Rs) (Replacements : Rs)
    (R : Replacement) : Except String (Rs × Replacement) :=
  match ops.add Replacements R with
  | .ok Added => .ok (Added, R)
  | .error Err =>
    if shiftedLength ops Replacements R = R.Length then
      .ok (ops.merge Replacements (ops.single (rebased ops Replacements R)),
        rebased ops Replacements R)
    else .error Err

/-- The first loop of `Instrumenter::applyReplacements` (lines 322 to 334):
one declaration replacement per entry of the counter map. -/
def addDecls {Rs : Type} (ops : ReplacementsOps Rs) :
    List (String × Nat) → FileMap Rs → Except String (FileMap Rs)
  | [], m => .ok m
  | (File, NumberMarkerDecls) :: rest, m =>
    match ops.add (FileMap.get ops m File) (declReplacement File NumberMarkerDecls) with
    | .error Err => .error Err
    | .ok rs => addDecls ops rest (FileMap.set m File rs)

/-- The second loop of `Instrumenter::applyReplacements` (lines 336 to 353)
over the replacements still to visit (already in reverse order); the visited
replacements are collected, re-based where the loop overwrote them. -/
def addLoop {Rs : Type} (ops : ReplacementsOps Rs) :
    List Replacement → FileMap Rs → List Replacement →
      Except String (FileMap Rs × List Replacement)
  | [], m, visited => .ok (m, visited)
  | R :: rest, m, visited =>
    match addOrMerge ops (FileMap.get ops m R.FilePath) R with
    | .error Err => .error Err
    | .ok res => addLoop ops rest (FileMap.set m R.FilePath res.1) (res.2 :: visited)

/-- Method `Instrumenter::applyReplacements` (lines 321 to 354): the new map
`FileToReplacements` and the vector `Replacements` afterwards, or the abort. -/
def Instrumenter.applyReplacements {Rs : Type} (ops : ReplacementsOps Rs)
    (st : CollectorState) (FileToReplacements : FileMap Rs) :
    Except String (FileMap Rs × List Replacement) :=
  match addDecls ops st.FileToNumberMarkerDecls FileToReplacements with
  | .error Err => .error Err
  | .ok m => addLoop ops st.Replacements.reverse m []

/-! ## The Global-to-Static pass (lines 362 to 406) -/

/-- Matcher `isStaticStorageClass` of clang. -/
def isStaticStorageClass (D : Decl) : Bool :=
  D.StorageClass == StorageClass.SC_Static

/-- The matcher of `globalizeRule` (lines 363 to 368). -/
def globalizeRule_matcher (SM : SourceManager) (D : Decl) : Option BoundNodes :=
  if ((D.kind = DeclKind.Var ∧ D.hasGlobalStorage = true ∧ isExtern D = false ∧
          isStaticStorageClass D = false) ∨
        (D.kind = DeclKind.Function ∧ D.isDefinition = true ∧ D.isMain = false ∧
          isStaticStorageClass D = false)) ∧
      isExpansionInMainFile SM D.BeginLoc = true then
    some [("global", DynTypedNode.decl D)]
  else none

/-- The edit of `globalizeRule` (line 369). -/
def globalizeRule_edits : EditGenerator :=
  edit (insertBefore (node "global") " static ")

/-- The loop of `RuleActionCallback::run` (lines 387 to 405). -/
def callbackLoop {Rs : Type} (ops : ReplacementsOps Rs) (Context : ASTContext) :
    List Edit → FileMap Rs → Except String (FileMap Rs)
  | [], m => .ok m
  | T :: rest, m =>
    let R := Replacement.ofRange Context T.Range T.Replacement
    match addOrMerge ops (FileMap.get ops m R.FilePath) R with
    | .error Err => .error Err
    | .ok res => callbackLoop ops Context rest (FileMap.set m R.FilePath res.1)

/-- Method `RuleActionCallback::run` (lines 373 to 406). -/
def RuleActionCallback.run {Rs : Type} (ops : ReplacementsOps Rs) (Rule : EditGenerator)
    (Result : MatchResult) (FileToReplacements : FileMap Rs) : Except String (FileMap Rs) :=
  if Result.Context.hasErrorOccurred then .ok FileToReplacements
  else
    match Rule Result with
    | .error _ => .ok FileToReplacements
    | .ok Edits => callbackLoop ops Result.Context Edits FileToReplacements

/-- The edits `globalizeRule` yields at one declaration: none when the
matcher does not match or edit generation fails. -/
def globalizeEdits (Context : ASTContext) (D : Decl) : List Edit :=
  match globalizeRule_matcher Context.SM D with
  | none => []
  | some Nodes =>
    if Context.hasErrorOccurred then []
    else
      match globalizeRule_edits ⟨Nodes, Context⟩ with
      | .error _ => []
      | .ok Edits => Edits

/-! ## Applying replacements to text -/

/-- One replacement applied to a text: `Length` characters at `Offset` give
way to the replacement text. -/
def applyReplacement (text : List Char) (R : Replacement) : List Char :=
  text.take R.Offset ++ R.ReplacementText.data ++ text.drop (R.Offset + R.Length)

/-- The replacements in reverse source order (descending offset; of two at
one offset the later one first). -/
def reverseSourceOrder (Rs : List Replacement) : List Replacement :=
  Rs.reverse.insertionSort (fun a b => b.Offset ≤ a.Offset)

/-- The external apply step: the replacements applied to the text in reverse
source order, so that the offsets of those not yet applied stay valid. -/
def applyAllReplacements (text : String) (Rs : List Replacement) : String :=
  ⟨(reverseSourceOrder Rs).foldl applyReplacement text.data⟩

/-- White space between C tokens. -/
def isSpace (c : Char) : Bool :=
  c == ' ' || c == '\n' || c == '\t' || c == '\r'

/-- A word in progress, closed into a token when non-empty. -/
def flushWord (cur : List Char) : List (List Char) :=
  if cur = [] then [] else [cur]

/-- Splitting of C text into tokens: maximal runs of identifier characters
are one token, every other character that is not white space is a token of
its own, white space separates. -/
def ctokensAux : List Char → List Char → List (List Char)
  | [], cur => flushWord cur
  | c :: cs, cur =>
    if isIdentChar c then ctokensAux cs (cur ++ [c])
    else if isSpace c then flushWord cur ++ ctokensAux cs []
    else flushWord cur ++ [c] :: ctokensAux cs []

/-- The token sequence of a C text. -/
def ctokens (s : String) : List String :=
  (ctokensAux s.data []).map String.mk

/-! ## Concrete services: one primary file, with optional macro expansions -/

/-- Number of leading white-space characters. -/
def skipWhitespace : List Char → Nat
  | [] => 0
  | c :: cs => if isSpace c then skipWhitespace cs + 1 else 0

/-- Length of the leading run of identifier characters. -/
def identLen : List Char → Nat
  | [] => 0
  | c :: cs => if isIdentChar c then identLen cs + 1 else 0

/-- Length of a line comment body: up to the end of the line. -/
def lineCommentLen : List Char → Nat
  | [] => 0
  | c :: cs => if c == '\n' then 0 else lineCommentLen cs + 1

/-- Length of a block comment body including its closing `*/`. -/
def blockCommentLen : List Char → Nat
  | [] => 0
  | [_] => 1
  | c :: d :: cs => if c == '*' && d == '/' then 2 else blockCommentLen (d :: cs) + 1

/-- Kind and length of the raw token at the head of the text. -/
def rawToken : List Char → TokenKind × Nat
  | [] => (TokenKind.eof, 0)
  | [c] =>
    if c == ';' then (TokenKind.semi, 1) else (TokenKind.other, 1)
  | c :: d :: cs =>
    if c == '/' && d == '/' then (TokenKind.comment, 2 + lineCommentLen cs)
    else if c == '/' && d == '*' then (TokenKind.comment, 2 + blockCommentLen cs)
    else if c == ';' then (TokenKind.semi, 1)
    else if isIdentChar c then (TokenKind.other, 1 + identLen (d :: cs))
    else (TokenKind.other, 1)

/-- Expansion range (begin offset, offset of the last token) of a location:
looked up in the table for a macro location, the location itself otherwise. -/
def expansionOf (exps : List (Nat × Nat × Nat)) (L : SourceLocation) : Nat × Nat :=
  if L.isMacroID then
    match exps.lookup L.ID with
    | some p => p
    | none => (0, 0)
  else (L.ID, L.ID)

/-- Source manager of a single primary file `main.c` holding `text`: a file
location `n` is the byte offset `n`, and every macro location listed in
`exps` expands at the given offsets of the file. -/
def textSM (text : String) (exps : List (Nat × Nat × Nat)) : SourceManager where
  getSpellingLoc := fun L => L
  getExpansionLoc := fun L => ⟨(expansionOf exps L).1⟩
  getExpansionRange := fun R =>
    ⟨⟨(expansionOf exps R.Begin).1⟩, ⟨(expansionOf exps R.End).2⟩, R.IsTokenRange⟩
  getDecomposedLoc := fun L => if L.isMacroID then (2, L.ID - 2 ^ 31) else (1, L.ID)
  getFileEntryName := fun F => if F = 1 then some "main.c" else none
  isInMainFile := fun L => !L.isMacroID
  getCharacterData := fun L =>
    if L.isMacroID then none
    else if L.ID ≤ text.length then some (text.data.drop L.ID) else none

/-- Source manager of a primary file without macro expansions. -/
def fileSM (text : String) : SourceManager := textSM text []

/-- Lexer service `MeasureTokenLength` over `text`: the length of the raw
token that starts at the location, 0 when the location holds white space. -/
def textMeasureTokenLength (text : String) (L : SourceLocation) : Nat :=
  if 0 < skipWhitespace (text.data.drop L.ID) then 0
  else (rawToken (text.data.drop L.ID)).2

/-- Lexer service `getLocForEndOfToken` over `text`. -/
def textLocForEndOfToken (text : String) (L : SourceLocation) : SourceLocation :=
  if L.isMacroID then L
  else if 0 < textMeasureTokenLength text L then ⟨L.ID + textMeasureTokenLength text L⟩
  else L

/-- Tooling service `maybeExtendRange` over `text`: extend the range to the
next raw token when that token has kind `Next`. -/
def textMaybeExtendRange (text : String) (Range : CharSourceRange) (Next : TokenKind) :
    CharSourceRange :=
  let E := if Range.IsTokenRange then textLocForEndOfToken text Range.End else Range.End
  let p := E.ID + skipWhitespace (text.data.drop E.ID)
  if (rawToken (text.data.drop p)).1 = Next then CharSourceRange.getTokenRange Range.Begin ⟨p⟩
  else Range

/-- Context of a single primary file `main.c` holding `text`, free of parse
errors, with the macro expansions `exps`. -/
def textContext (text : String) (exps : List (Nat × Nat × Nat)) : ASTContext where
  SM := textSM text exps
  hasErrorOccurred := false
  maybeExtendRange := textMaybeExtendRange text
  getLocForEndOfToken := textLocForEndOfToken text
  MeasureTokenLength := textMeasureTokenLength text
  getRangeForEdit := fun R =>
    if !R.Begin.isMacroID && !R.End.isMacroID && decide (R.Begin.ID ≤ R.End.ID) then some R
    else none

/-- A list-backed replacement set: `add` rejects a replacement that overlaps
a recorded one, `getShiftedCodePosition` moves a position by the size changes
of the recorded replacements that end at or before it. -/
def listOps : ReplacementsOps (List Replacement) where
  empty := []
  single := fun R => [R]
  add := fun Rs R =>
    if Rs.any (fun r => decide (R.Offset < r.Offset + r.Length) &&
        decide (r.Offset < R.Offset + R.Length)) then .error "overlapping replacement"
    else .ok (Rs ++ [R])
  getShiftedCodePosition := fun Rs Position =>
    Rs.foldl (fun acc r =>
      if r.Offset + r.Length ≤ Position then acc + r.ReplacementText.length - r.Length
      else acc) Position
  merge := fun Rs Rs2 => Rs ++ Rs2

/-! ## Bookkeeping of collected edits -/

/-- The edits one match hands to the loop of the collector, each with the
context it is resolved in; none when the match is skipped. -/
def collectedEdits (m : EditGenerator × MatchResult) : List (ASTContext × Edit) :=
  if m.2.Context.hasErrorOccurred then []
  else
    match m.1 m.2 with
    | .error _ => []
    | .ok Edits => Edits.map (fun T => (m.2.Context, T))

/-- All edits collected over a sequence of matches, in collection order. -/
def allCollectedEdits : List (EditGenerator × MatchResult) → List (ASTContext × Edit)
  | [] => []
  | m :: rest => collectedEdits m ++ allCollectedEdits rest

/-- The file a collected edit belongs to (the key of its marker counter). -/
def editFile (p : ASTContext × Edit) : String :=
  GetFilenameFromRange p.2.Range p.1.SM

/-- The collected edit is tagged `MarkerCall` and belongs to `File`. -/
def isMarkerOf (File : String) (p : ASTContext × Edit) : Bool :=
  isMarker p.2 && decide (editFile p = File)

/-- Number of `MarkerCall` edits of `File` among the collected edits. -/
def markerCount (File : String) (es : List (ASTContext × Edit)) : Nat :=
  es.countP (isMarkerOf File)

/-- The replacement expected for a collected edit that is preceded by the
edits `earlier`: a `MarkerCall` edit of a file calls the marker whose number
is the count of earlier `MarkerCall` edits of that file. -/
def expectedReplacement (earlier : List (ASTContext × Edit)) (p : ASTContext × Edit) :
    Replacement :=
  if isMarker p.2 then
    Replacement.ofRange p.1 p.2.Range
      (p.2.Replacement ++ "marker_" ++ toString (markerCount (editFile p) earlier) ++ "();")
  else Replacement.ofRange p.1 p.2.Range p.2.Replacement

/-- The replacements expected for the collected edits, in order. -/
def expectedReplacements :
    List (ASTContext × Edit) → List (ASTContext × Edit) → List Replacement
  | _, [] => []
  | earlier, p :: rest =>
    expectedReplacement earlier p :: expectedReplacements (earlier ++ [p]) rest

/-- The marker numbers written for the `MarkerCall` edits of `File`, in
collection order. -/
def markerNumbers (File : String) :
    List (ASTContext × Edit) → List (ASTContext × Edit) → List Nat
  | _, [] => []
  | earlier, p :: rest =>
    if isMarkerOf File p then
      markerCount (editFile p) earlier :: markerNumbers File (earlier ++ [p]) rest
    else markerNumbers File (earlier ++ [p]) rest

/-- The definition of the function `marker_k`: a `noinline` function named
with index `k` whose body prints index `k`. -/
def declText (k : Nat) : String :=
  "void  __attribute__ ((noinline)) marker_" ++ toString k ++ "(void) \x7b printf(\" b" ++
    toString k ++ "b \");\x7d \n"

/-- The declaration replacements the first loop of `applyReplacements`
passes to `add`, one per entry of the counter map. -/
def declReplacements (counters : List (String × Nat)) : List Replacement :=
  counters.map (fun p => declReplacement p.1 p.2)

/-- Addition of one replacement to the set of its file, as on line 332. -/
def addToFile {Rs : Type} (ops : ReplacementsOps Rs) (m : FileMap Rs) (R : Replacement) :
    Except String (FileMap Rs) :=
  match ops.add (FileMap.get ops m R.FilePath) R with
  | .error Err => .error Err
  | .ok rs => .ok (FileMap.set m R.FilePath rs)

/-- Addition of a list of replacements in order, stopping at the first
rejection. -/
def addAllToFiles {Rs : Type} (ops : ReplacementsOps Rs) :
    List Replacement → FileMap Rs → Except String (FileMap Rs)
  | [], m => .ok m
  | R :: rest, m =>
    match addToFile ops m R with
    | .error Err => .error Err
    | .ok m1 => addAllToFiles ops rest m1

/-- The counter map agrees with the collected edits: for every file it
holds no entry when the file has no `MarkerCall` edit, and otherwise exactly
one entry, whose value is the number of `MarkerCall` edits of the file. -/
def CountersAgree (counters : List (String × Nat)) (earlier : List (ASTContext × Edit)) : Prop :=
  ∀ File : String, counters.filter (fun p => decide (p.1 = File)) =
    if markerCount File earlier = 0 then [] else [(File, markerCount File earlier)]

/-! ## Reading results: insertion points, counters, rule outcomes -/

/-- Read `FileToNumberMarkerDecls[File]` without creating an entry: the
number of markers handed out for `File` so far. -/
def counterOf (counters : List (String × Nat)) (File : String) : Nat :=
  match counters.filter (fun p => decide (p.1 = File)) with
  | [] => 0
  | q :: _ => q.2

/-- File name the replacement constructor assigns to a location. -/
def fileOf (Context : ASTContext) (L : SourceLocation) : String :=
  match Context.SM.getFileEntryName (Context.SM.getDecomposedLoc (Context.SM.getSpellingLoc L)).1 with
  | some name => name
  | none => ""

/-- File offset the replacement constructor assigns to a location. -/
def offsetOf (Context : ASTContext) (L : SourceLocation) : Nat :=
  (Context.SM.getDecomposedLoc (Context.SM.getSpellingLoc L)).2

/-- The range `statementWithMacrosExpanded` selects for a statement. -/
def stmtRange (Context : ASTContext) (S : Stmt) : CharSourceRange :=
  Context.SM.getExpansionRange (getExtendedRangeWithCommentsAndSemi (DynTypedNode.stmt S) Context)

/-- The location at which `insertBefore(statementWithMacrosExpanded(..))` inserts. -/
def stmtBegin (Context : ASTContext) (S : Stmt) : SourceLocation :=
  (stmtRange Context S).Begin

/-- The location at which `insertAfter(statementWithMacrosExpanded(..))` inserts. -/
def stmtEnd (Context : ASTContext) (S : Stmt) : SourceLocation :=
  if (stmtRange Context S).IsTokenRange then Context.getLocForEndOfToken (stmtRange Context S).End
  else (stmtRange Context S).End

/-- The edits the if rule yields at one if statement: none when the matcher
does not match, a parse error is recorded or edit generation fails. -/
def ifEdits (Context : ASTContext) (Node : IfStmt) : List Edit :=
  match instrumentIfStmt_matcher Context.SM Node with
  | none => []
  | some Nodes =>
    if Context.hasErrorOccurred then []
    else
      match instrumentIfStmt_actions ⟨Nodes, Context⟩ with
      | .error _ => []
      | .ok Edits => Edits

/-- The edits the loop rule yields at one loop statement. -/
def loopEdits (Context : ASTContext) (Node : LoopStmt) : List Edit :=
  match instrumentLoop Context.SM Node with
  | none => []
  | some sel =>
    if Context.hasErrorOccurred then []
    else
      match sel.2 ⟨sel.1, Context⟩ with
      | .error _ => []
      | .ok Edits => Edits

/-- The word in progress after the tokenizer has read a prefix. -/
def pendingWord : List Char → List Char → List Char
  | [], cur => cur
  | c :: cs, cur => if isIdentChar c then pendingWord cs (cur ++ [c]) else pendingWord cs []

/-- The tokens the tokenizer has closed after reading a prefix. -/
def closedTokens : List Char → List Char → List (List Char)
  | [], _ => []
  | c :: cs, cur =>
    if isIdentChar c then closedTokens cs (cur ++ [c])
    else if isSpace c then flushWord cur ++ closedTokens cs []
    else flushWord cur ++ [c] :: closedTokens cs []

/-- The replacements `RuleActionCallback::run` builds (line 389) from the
edits `globalizeRule` yields at one declaration. -/
def globalizeReplacements (Context : ASTContext) (D : Decl) : List Replacement :=
  (globalizeEdits Context D).map (fun T => Replacement.ofRange Context T.Range T.Replacement)

/-- The edit of `InstrumentCStmt` at a block: the empty text, tagged
`MarkerCall`, inserted right after the opening brace. -/
def blockEdits (S : Stmt) : List Edit :=
  [⟨CharSourceRange.getCharRange (S.BeginLoc.getLocWithOffset 1) (S.BeginLoc.getLocWithOffset 1),
    "", some EditMetadataKind.MarkerCall⟩]

/-- The two edits of `InstrumentNonCStmt` at a statement: the opening brace,
tagged `MarkerCall`, at the begin of the range selected for the statement
and a newline with the closing brace at its end. -/
def wrapEdits (Context : ASTContext) (S : Stmt) : List Edit :=
  [⟨CharSourceRange.getCharRange (stmtBegin Context S) (stmtBegin Context S), "\x7b",
      some EditMetadataKind.MarkerCall⟩,
    ⟨CharSourceRange.getCharRange (stmtEnd Context S) (stmtEnd Context S), "\n\x7d", none⟩]

/-- The edits of an optional statement. -/
def optEdits (f : Stmt → List Edit) : Option Stmt → List Edit
  | none => []
  | some S => f S

/-- The then-branch when it is an eligible block: a compound statement
whose begin and end are outside macro expansions and whose begin expands in
the primary file. -/
def thenBlock (SM : SourceManager) (Node : IfStmt) : Option Stmt :=
  if Node.Then.cls = StmtClass.CompoundStmt ∧ inMainAndNotMacro SM Node.Then = true then
    some Node.Then
  else none

/-- The then-branch when it is not an eligible block. -/
def thenBare (SM : SourceManager) (Node : IfStmt) : Option Stmt :=
  if Node.Then.cls = StmtClass.CompoundStmt ∧ inMainAndNotMacro SM Node.Then = true then none
  else some Node.Then

/-- The else-branch when it is an eligible block. -/
def elseBlock (SM : SourceManager) (Node : IfStmt) : Option Stmt :=
  match Node.Else with
  | none => none
  | some E =>
    if E.cls = StmtClass.CompoundStmt ∧ inMainAndNotMacro SM E = true then some E else none

/-- The else-branch when it is not an eligible block and the `else` keyword
is outside macro expansions and in the primary file. -/
def elseBare (SM : SourceManager) (Node : IfStmt) : Option Stmt :=
  match Node.Else with
  | none => none
  | some E =>
    if E.cls = StmtClass.CompoundStmt ∧ inMainAndNotMacro SM E = true then none
    else if ElseNotInMacroAndInMain SM Node = true then some E
    else none

/-- The edits expected of the if rule at a matched if statement, in the
order of its actions: block then, block else, bare then, bare else. -/
def expectedIfEdits (Context : ASTContext) (Node : IfStmt) : List Edit :=
  optEdits blockEdits (thenBlock Context.SM Node) ++
    optEdits blockEdits (elseBlock Context.SM Node) ++
    optEdits (wrapEdits Context) (thenBare Context.SM Node) ++
    optEdits (wrapEdits Context) (elseBare Context.SM Node)

/-! ## The examples of the specification -/

/-- The statement `if (c) foo();`: the closing parenthesis at offset 5, the
bare then-branch `foo()` from offset 7 to its last token at offset 11. -/
def ifExample : IfStmt :=
  ⟨⟨0⟩, ⟨11⟩, ⟨5⟩, ⟨0⟩, ⟨StmtClass.Other, ⟨7⟩, ⟨11⟩, false⟩, none⟩

/-- The statement `if (c) return;`: the bare then-branch is a return
statement without a value, whose begin and end are both the keyword at
offset 7. -/
def returnIfExample : IfStmt :=
  ⟨⟨0⟩, ⟨7⟩, ⟨5⟩, ⟨0⟩, ⟨StmtClass.ReturnStmt, ⟨7⟩, ⟨7⟩, false⟩, none⟩

/-- The statement `do x(); while(cond);`: `do` at offset 0, the bare body
`x()` from offset 3 to its last token at offset 5, `while` at offset 8. -/
def doExample : LoopStmt :=
  ⟨StmtClass.DoStmt, ⟨0⟩, ⟨18⟩, ⟨0⟩, ⟨8⟩, ⟨StmtClass.Other, ⟨3⟩, ⟨5⟩, false⟩⟩

/-- The statement `if (c) FOO; else BAR;` in which `FOO` and `BAR` are
macros expanding to a call each: both branches begin and end at macro
locations, expanded at offsets 7 and 17 of the file. -/
def macroIfExample : IfStmt :=
  ⟨⟨0⟩, ⟨2 ^ 31 + 12⟩, ⟨5⟩, ⟨12⟩, ⟨StmtClass.Other, ⟨2 ^ 31⟩, ⟨2 ^ 31 + 4⟩, false⟩,
    some ⟨StmtClass.Other, ⟨2 ^ 31 + 8⟩, ⟨2 ^ 31 + 12⟩, false⟩⟩

/-- The context of `if (c) FOO; else BAR;` with the four macro locations of
`macroIfExample`. -/
def macroIfContext : ASTContext :=
  textContext "if (c) FOO; else BAR;"
    [(2 ^ 31, 7, 7), (2 ^ 31 + 4, 7, 7), (2 ^ 31 + 8, 17, 17), (2 ^ 31 + 12, 17, 17)]

/-- The declaration `int x = 1;` at file scope. -/
def globalExample : Decl :=
  ⟨DeclKind.Var, ⟨0⟩, ⟨8⟩, true, StorageClass.SC_None, true, false, true, Linkage.External⟩

/-- The definition `extern int f(void) { return 0; }` at file scope. -/
def externFunctionExample : Decl :=
  ⟨DeclKind.Function, ⟨0⟩, ⟨31⟩, false, StorageClass.SC_Extern, true, false, true,
    Linkage.External⟩

/-- The C++ declaration `const int x = 1;` at namespace scope: a variable
definition with internal linkage and no storage class specifier. -/
def internalConstExample : Decl :=
  ⟨DeclKind.Var, ⟨0⟩, ⟨14⟩, true, StorageClass.SC_None, true, false, true, Linkage.Internal⟩

/-- The C++ member function definition `void f() {}` inside the body of
`struct S { void f() {} };`: a function definition that is not at file
scope. -/
def methodExample : Decl :=
  ⟨DeclKind.Function, ⟨11⟩, ⟨21⟩, false, StorageClass.SC_None, true, false, false,
    Linkage.External⟩

/-- The condition the specification gives for the Global-to-Static edit: a
file-scope variable or function definition with external linkage, not
already `extern` or `static`, and not `main`. -/
def specGlobalizes (D : Decl) : Bool :=
  (D.kind == DeclKind.Var || D.kind == DeclKind.Function) && D.isFileScope && D.isDefinition &&
    D.linkage == Linkage.External && !isExtern D && !isStaticStorageClass D && !D.isMain

/-! ## Theorems: range extension -/

theorem returnLoop_five (Char : List Char) :
    returnLoop Char 0 5 = false ↔
      (charAt Char 0 = 'r' ∧ charAt Char 1 = 'e' ∧ charAt Char 2 = 't' ∧
        charAt Char 3 = 'u' ∧ charAt Char 4 = 'r') := by
  have h0 : charAt Return 0 = 'r' := by decide
  have h1 : charAt Return 1 = 'e' := by decide
  have h2 : charAt Return 2 = 't' := by decide
  have h3 : charAt Return 3 = 'u' := by decide
  have h4 : charAt Return 4 = 'r' := by decide
  simp only [returnLoop, h0, h1, h2, h3, h4]
  by_cases c0 : charAt Char 0 = 'r' <;> by_cases c1 : charAt Char 1 = 'e' <;>
    by_cases c2 : charAt Char 2 = 't' <;> by_cases c3 : charAt Char 3 = 'u' <;>
    by_cases c4 : charAt Char 4 = 'r' <;> simp [c0, c1, c2, c3, c4]

/-- C10: `handleReturnStmts` equals the reference definition for every node,
end location and source manager; and since only five characters are
compared, text at `End` that is not the keyword `return` (the identifiers
`return_code` and `returns`) is still widened by 7. -/
theorem handleReturnStmts_eq_reference :
    (∀ (Node : DynTypedNode) (End : SourceLocation) (SM : SourceManager),
      handleReturnStmts Node End SM = handleReturnStmts_reference Node End SM) ∧
    (isReturnToken "return_code = 1;".data = false ∧
      handleReturnStmts (.stmt ⟨.Other, ⟨0⟩, ⟨0⟩, false⟩) ⟨0⟩ (fileSM "return_code = 1;")
        = ⟨7⟩) ∧
    (isReturnToken "returns();".data = false ∧
      handleReturnStmts (.stmt ⟨.Other, ⟨0⟩, ⟨0⟩, false⟩) ⟨0⟩ (fileSM "returns();")
        = ⟨7⟩) := by
  refine ⟨?_, ⟨by decide, by decide⟩, ⟨by decide, by decide⟩⟩
  intro Node End SM
  unfold handleReturnStmts handleReturnStmts_reference
  cases Node.getReturnStmt with
  | some Ret => rfl
  | none =>
    cases SM.getCharacterData End with
    | none => rfl
    | some Char =>
      by_cases h : returnLoop Char 0 5 = false
      · have h5 := (returnLoop_five Char).1 h
        simp [h, h5, SourceLocation.getLocWithOffset]
      · have h5 : ¬ (charAt Char 0 = 'r' ∧ charAt Char 1 = 'e' ∧ charAt Char 2 = 't' ∧
            charAt Char 3 = 'u' ∧ charAt Char 4 = 'r') := fun c => h ((returnLoop_five Char).2 c)
        have ht : returnLoop Char 0 5 = true := by simpa using h
        simp only [ht, if_true, if_neg h5]

theorem take5_ne_retur (Char : List Char) (h : Char.take 5 ≠ "retur".data) :
    ¬ (charAt Char 0 = 'r' ∧ charAt Char 1 = 'e' ∧ charAt Char 2 = 't' ∧
      charAt Char 3 = 'u' ∧ charAt Char 4 = 'r') := by
  rintro ⟨h0, h1, h2, h3, h4⟩
  apply h
  rcases Char with _ | ⟨a, _ | ⟨b, _ | ⟨c, _ | ⟨d, _ | ⟨e, t⟩⟩⟩⟩⟩
  · exact absurd h0 (by decide)
  · simp [charAt] at h1
  · simp [charAt] at h2
  · simp [charAt] at h3
  · simp [charAt] at h4
  · simp only [charAt, List.getD_cons_zero, List.getD_cons_succ] at h0 h1 h2 h3 h4
    subst h0 h1 h2 h3 h4
    rfl

theorem isReturnToken_retur (Char : List Char) (h : isReturnToken Char = true) :
    charAt Char 0 = 'r' ∧ charAt Char 1 = 'e' ∧ charAt Char 2 = 't' ∧
      charAt Char 3 = 'u' ∧ charAt Char 4 = 'r' := by
  have h6 : Char.take 6 = Return := by
    simp only [isReturnToken, Bool.and_eq_true, beq_iff_eq] at h
    exact h.1
  rcases Char with _ | ⟨a, _ | ⟨b, _ | ⟨c, _ | ⟨d, _ | ⟨e, _ | ⟨f, t⟩⟩⟩⟩⟩⟩
  · exact absurd h6 (by decide)
  · exact absurd h6 (by simp [Return])
  · exact absurd h6 (by simp [Return])
  · exact absurd h6 (by simp [Return])
  · exact absurd h6 (by simp [Return])
  · exact absurd h6 (by simp [Return])
  · simp only [Return, List.take_succ_cons, List.take_zero, List.cons.injEq] at h6
    obtain ⟨r0, r1, r2, r3, r4, _⟩ := h6
    subst r0 r1 r2 r3 r4
    simp [charAt]

/-- C6 (counterexample): in `if (c) return;` the if statement is not a return
statement and its end location points at the literal `return` token, yet the
end is widened by 7 rather than left unchanged. -/
theorem handleReturnStmts_widens_at_return :
    (DynTypedNode.stmt ⟨.IfStmt, ⟨0⟩, ⟨7⟩, false⟩).getReturnStmt = none ∧
    (fileSM "if (c) return;").getCharacterData ⟨7⟩ = some "return;".data ∧
    isReturnToken "return;".data = true ∧
    handleReturnStmts (.stmt ⟨.IfStmt, ⟨0⟩, ⟨7⟩, false⟩) ⟨7⟩ (fileSM "if (c) return;") = ⟨14⟩ ∧
    handleReturnStmts (.stmt ⟨.IfStmt, ⟨0⟩, ⟨7⟩, false⟩) ⟨7⟩ (fileSM "if (c) return;") ≠ ⟨7⟩ := by
  decide

/-- C6 (amended): for a node that is not a return statement the end is
widened by 7 when the text at the candidate end is the literal `return`
token, and it is left unchanged when the character data is invalid or the
text does not begin with the letters r, e, t, u, r. -/
theorem handleReturnStmts_non_return (Node : DynTypedNode) (End : SourceLocation)
    (SM : SourceManager) (h : Node.getReturnStmt = none) :
    (∀ Char, SM.getCharacterData End = some Char → isReturnToken Char = true →
      handleReturnStmts Node End SM = End.getLocWithOffset 7) ∧
    (SM.getCharacterData End = none → handleReturnStmts Node End SM = End) ∧
    (∀ Char, SM.getCharacterData End = some Char → Char.take 5 ≠ "retur".data →
      handleReturnStmts Node End SM = End) := by
  refine ⟨?_, ?_, ?_⟩
  · intro Char hc hr
    have h5 := (returnLoop_five Char).2 (isReturnToken_retur Char hr)
    simp [handleReturnStmts, h, hc, h5]
  · intro hc
    simp [handleReturnStmts, h, hc]
  · intro Char hc hr
    have h5 : returnLoop Char 0 5 = true := by
      by_contra hn
      have hf : returnLoop Char 0 5 = false := by simpa using hn
      exact take5_ne_retur Char hr ((returnLoop_five Char).1 hf)
    simp [handleReturnStmts, h, hc, h5]

/-- C6 (amended), at `if (c) return;`: the end of the if statement moves from
offset 7 to offset 14. -/
theorem handleReturnStmts_non_return_witness :
    handleReturnStmts (.stmt ⟨.IfStmt, ⟨0⟩, ⟨7⟩, false⟩) ⟨7⟩ (fileSM "if (c) return;") =
      (⟨7⟩ : SourceLocation).getLocWithOffset 7 :=
  (handleReturnStmts_non_return (.stmt ⟨.IfStmt, ⟨0⟩, ⟨7⟩, false⟩) ⟨7⟩
    (fileSM "if (c) return;") (by decide)).1 "return;".data (by decide) (by decide)

/-! ## Theorems: the replacement merger -/

theorem addLoop_abort_iff {Rs : Type} (ops : ReplacementsOps Rs) (L : List Replacement) :
    ∀ (m : FileMap Rs) (visited : List Replacement),
      (∃ Err, addLoop ops L m visited = .error Err) ↔
        ∃ pre R post m1 v1, L = pre ++ R :: post ∧ addLoop ops pre m visited = .ok (m1, v1) ∧
          ∃ Err, addOrMerge ops (FileMap.get ops m1 R.FilePath) R = .error Err := by
  induction L with
  | nil =>
    intro m visited
    constructor
    · rintro ⟨Err, h⟩
      simp [addLoop] at h
    · rintro ⟨pre, R, post, m1, v1, hL, _⟩
      simp at hL
  | cons R rest ih =>
    intro m visited
    constructor
    · rintro ⟨Err, h⟩
      cases hstep : addOrMerge ops (FileMap.get ops m R.FilePath) R with
      | error e =>
        exact ⟨[], R, rest, m, visited, rfl, rfl, e, hstep⟩
      | ok res =>
        simp only [addLoop, hstep] at h
        obtain ⟨pre, R1, post, m1, v1, hL, hpre, herr⟩ := (ih _ _).1 ⟨Err, h⟩
        refine ⟨R :: pre, R1, post, m1, v1, by simp [hL], ?_, herr⟩
        simp only [addLoop, hstep]
        exact hpre
    · rintro ⟨pre, R1, post, m1, v1, hL, hpre, Err, herr⟩
      cases pre with
      | nil =>
        simp only [List.nil_append, List.cons.injEq] at hL
        obtain ⟨rfl, rfl⟩ := hL
        simp only [addLoop, Except.ok.injEq, Prod.mk.injEq] at hpre
        obtain ⟨rfl, rfl⟩ := hpre
        exact ⟨Err, by simp only [addLoop, herr]⟩
      | cons P pre1 =>
        simp only [List.cons_append, List.cons.injEq] at hL
        obtain ⟨rfl, rfl⟩ := hL
        cases hstep : addOrMerge ops (FileMap.get ops m R.FilePath) R with
        | error e => simp [addLoop, hstep] at hpre
        | ok res =>
          simp only [addLoop, hstep] at hpre
          obtain ⟨Err2, h2⟩ := (ih _ _).2 ⟨pre1, R1, post, m1, v1, rfl, hpre, Err, herr⟩
          exact ⟨Err2, by simp only [addLoop, hstep]; exact h2⟩

theorem callbackLoop_abort_iff {Rs : Type} (ops : ReplacementsOps Rs) (Context : ASTContext)
    (L : List Edit) :
    ∀ (m : FileMap Rs),
      (∃ Err, callbackLoop ops Context L m = .error Err) ↔
        ∃ pre T post m1, L = pre ++ T :: post ∧ callbackLoop ops Context pre m = .ok m1 ∧
          ∃ Err, addOrMerge ops
            (FileMap.get ops m1 (Replacement.ofRange Context T.Range T.Replacement).FilePath)
            (Replacement.ofRange Context T.Range T.Replacement) = .error Err := by
  induction L with
  | nil =>
    intro m
    constructor
    · rintro ⟨Err, h⟩
      simp [callbackLoop] at h
    · rintro ⟨pre, R, post, m1, hL, _⟩
      simp at hL
  | cons T rest ih =>
    intro m
    constructor
    · rintro ⟨Err, h⟩
      cases hstep : addOrMerge ops
          (FileMap.get ops m (Replacement.ofRange Context T.Range T.Replacement).FilePath)
          (Replacement.ofRange Context T.Range T.Replacement) with
      | error e =>
        exact ⟨[], T, rest, m, rfl, rfl, e, hstep⟩
      | ok res =>
        simp only [callbackLoop, hstep] at h
        obtain ⟨pre, T1, post, m1, hL, hpre, herr⟩ := (ih _).1 ⟨Err, h⟩
        refine ⟨T :: pre, T1, post, m1, by simp [hL], ?_, herr⟩
        simp only [callbackLoop, hstep]
        exact hpre
    · rintro ⟨pre, T1, post, m1, hL, hpre, Err, herr⟩
      cases pre with
      | nil =>
        simp only [List.nil_append, List.cons.injEq] at hL
        obtain ⟨rfl, rfl⟩ := hL
        simp only [callbackLoop, Except.ok.injEq] at hpre
        subst hpre
        exact ⟨Err, by simp only [callbackLoop, herr]⟩
      | cons P pre1 =>
        simp only [List.cons_append, List.cons.injEq] at hL
        obtain ⟨rfl, rfl⟩ := hL
        cases hstep : addOrMerge ops
            (FileMap.get ops m (Replacement.ofRange Context T.Range T.Replacement).FilePath)
            (Replacement.ofRange Context T.Range T.Replacement) with
        | error e => simp [callbackLoop, hstep] at hpre
        | ok res =>
          simp only [callbackLoop, hstep] at hpre
          obtain ⟨Err2, h2⟩ := (ih _).2 ⟨pre1, T1, post, m1, rfl, hpre, Err, herr⟩
          exact ⟨Err2, by simp only [callbackLoop, hstep]; exact h2⟩

theorem FileMap_get_set {Rs : Type} (ops : ReplacementsOps Rs) (m : FileMap Rs) (f : String)
    (rs : Rs) :
    FileMap.get ops (FileMap.set m f rs) f = rs ∧
      ∀ g, g ≠ f → FileMap.get ops (FileMap.set m f rs) g = FileMap.get ops m g := by
  induction m with
  | nil =>
    constructor
    · simp [FileMap.set, FileMap.get, List.lookup]
    · intro g hg
      have hne : (g == f) = false := by simpa using hg
      simp [FileMap.set, FileMap.get, List.lookup, hne]
  | cons q rest ih =>
    obtain ⟨F, old⟩ := q
    by_cases hF : F = f
    · subst hF
      constructor
      · simp [FileMap.set, FileMap.get, List.lookup]
      · intro g hg
        have hne : (g == F) = false := by simpa using hg
        simp [FileMap.set, FileMap.get, List.lookup, hne]
    · constructor
      · have hne : (f == F) = false := by simpa using fun h => hF h.symm
        have h1 := ih.1
        simp only [FileMap.get] at h1 ⊢
        simp only [FileMap.set, hF, if_false, List.lookup, hne]
        exact h1
      · intro g hg
        have h2 := ih.2 g hg
        simp only [FileMap.get] at h2 ⊢
        simp only [FileMap.set, hF, if_false, List.lookup]
        cases hgF : (g == F) with
        | true => rfl
        | false => exact h2

theorem addLoop_stores {Rs : Type} (ops : ReplacementsOps Rs) (R : Replacement)
    (rest : List Replacement) (m : FileMap Rs) (visited : List Replacement)
    (S : Rs) (Q : Replacement)
    (h : addOrMerge ops (FileMap.get ops m R.FilePath) R = .ok (S, Q)) :
    ∃ m1, addLoop ops (R :: rest) m visited = addLoop ops rest m1 (Q :: visited) ∧
      FileMap.get ops m1 R.FilePath = S ∧
      ∀ g, g ≠ R.FilePath → FileMap.get ops m1 g = FileMap.get ops m g := by
  refine ⟨FileMap.set m R.FilePath S, ?_, (FileMap_get_set ops m _ S).1,
    (FileMap_get_set ops m _ S).2⟩
  simp only [addLoop, h]

theorem callbackLoop_stores {Rs : Type} (ops : ReplacementsOps Rs) (Context : ASTContext)
    (T : Edit) (rest : List Edit) (m : FileMap Rs) (S : Rs) (Q : Replacement)
    (h : addOrMerge ops
        (FileMap.get ops m (Replacement.ofRange Context T.Range T.Replacement).FilePath)
        (Replacement.ofRange Context T.Range T.Replacement) = .ok (S, Q)) :
    ∃ m1, callbackLoop ops Context (T :: rest) m = callbackLoop ops Context rest m1 ∧
      FileMap.get ops m1 (Replacement.ofRange Context T.Range T.Replacement).FilePath = S ∧
      ∀ g, g ≠ (Replacement.ofRange Context T.Range T.Replacement).FilePath →
        FileMap.get ops m1 g = FileMap.get ops m g := by
  refine ⟨FileMap.set m (Replacement.ofRange Context T.Range T.Replacement).FilePath S, ?_,
    (FileMap_get_set ops m _ S).1, (FileMap_get_set ops m _ S).2⟩
  simp only [callbackLoop, h]

/-- C2: for every replacement `R` whose direct insertion into the set is
rejected, if the shifted length equals the original length then `R` is
re-based to the shifted offset and merged, with no abort; the step aborts if
and only if the insertion was rejected and the shifted length differs from
the original length; and each of the two add loops aborts exactly when the
step aborts at one of its replacements.  In both loops the merged set (or,
when the insertion is accepted, the set with `R` added) is stored as the set
of the file of `R`, the sets of the other files stay as they were, and the
loop goes on with the next replacement; `Instrumenter::applyReplacements`
runs its loop over the collected replacements in reverse order and
`RuleActionCallback::run` over the replacements of the edits of the match.
The shifted length is computed in 32 bit unsigned arithmetic and is the
plain difference `shifted(offset + length) - shifted(offset)` when nothing
wraps around. -/
theorem addOrMerge_merges_or_aborts {Rs : Type} (ops : ReplacementsOps Rs)
    (Replacements : Rs) (R : Replacement) :
    (∀ Err, ops.add Replacements R = .error Err →
      shiftedLength ops Replacements R = R.Length →
        addOrMerge ops Replacements R =
          .ok (ops.merge Replacements (ops.single
              ⟨R.FilePath, ops.getShiftedCodePosition Replacements R.Offset % 2 ^ 32,
                R.Length, R.ReplacementText⟩),
            ⟨R.FilePath, ops.getShiftedCodePosition Replacements R.Offset % 2 ^ 32,
              R.Length, R.ReplacementText⟩)) ∧
    ((∃ Err, addOrMerge ops Replacements R = .error Err) ↔
      ((∃ Err, ops.add Replacements R = .error Err) ∧
        shiftedLength ops Replacements R ≠ R.Length)) ∧
    (R.Offset + R.Length < 2 ^ 32 →
      ops.getShiftedCodePosition Replacements (R.Offset + R.Length) < 2 ^ 32 →
      ops.getShiftedCodePosition Replacements R.Offset ≤
        ops.getShiftedCodePosition Replacements (R.Offset + R.Length) →
      shiftedLength ops Replacements R =
        ops.getShiftedCodePosition Replacements (R.Offset + R.Length) -
          ops.getShiftedCodePosition Replacements R.Offset) ∧
    (∀ (L : List Replacement) (m : FileMap Rs) (visited : List Replacement),
      (∃ Err, addLoop ops L m visited = .error Err) ↔
        ∃ pre R1 post m1 v1, L = pre ++ R1 :: post ∧
          addLoop ops pre m visited = .ok (m1, v1) ∧
          (∃ Err, ops.add (FileMap.get ops m1 R1.FilePath) R1 = .error Err) ∧
          shiftedLength ops (FileMap.get ops m1 R1.FilePath) R1 ≠ R1.Length) ∧
    (∀ (Context : ASTContext) (L : List Edit) (m : FileMap Rs),
      (∃ Err, callbackLoop ops Context L m = .error Err) ↔
        ∃ pre T post m1, L = pre ++ T :: post ∧ callbackLoop ops Context pre m = .ok m1 ∧
          (∃ Err, ops.add
            (FileMap.get ops m1 (Replacement.ofRange Context T.Range T.Replacement).FilePath)
            (Replacement.ofRange Context T.Range T.Replacement) = .error Err) ∧
          shiftedLength ops
            (FileMap.get ops m1 (Replacement.ofRange Context T.Range T.Replacement).FilePath)
            (Replacement.ofRange Context T.Range T.Replacement) ≠
              (Replacement.ofRange Context T.Range T.Replacement).Length) ∧
    (∀ (rest : List Replacement) (m : FileMap Rs) (visited : List Replacement) (Err : String),
      ops.add (FileMap.get ops m R.FilePath) R = .error Err →
      shiftedLength ops (FileMap.get ops m R.FilePath) R = R.Length →
        ∃ m1, addLoop ops (R :: rest) m visited =
            addLoop ops rest m1
              (⟨R.FilePath,
                ops.getShiftedCodePosition (FileMap.get ops m R.FilePath) R.Offset % 2 ^ 32,
                R.Length, R.ReplacementText⟩ :: visited) ∧
          FileMap.get ops m1 R.FilePath =
            ops.merge (FileMap.get ops m R.FilePath) (ops.single
              ⟨R.FilePath,
                ops.getShiftedCodePosition (FileMap.get ops m R.FilePath) R.Offset % 2 ^ 32,
                R.Length, R.ReplacementText⟩) ∧
          ∀ g, g ≠ R.FilePath → FileMap.get ops m1 g = FileMap.get ops m g) ∧
    (∀ (rest : List Replacement) (m : FileMap Rs) (visited : List Replacement) (Added : Rs),
      ops.add (FileMap.get ops m R.FilePath) R = .ok Added →
        ∃ m1, addLoop ops (R :: rest) m visited = addLoop ops rest m1 (R :: visited) ∧
          FileMap.get ops m1 R.FilePath = Added ∧
          ∀ g, g ≠ R.FilePath → FileMap.get ops m1 g = FileMap.get ops m g) ∧
    (∀ (Context : ASTContext) (T : Edit) (rest : List Edit) (m : FileMap Rs) (Err : String),
      Replacement.ofRange Context T.Range T.Replacement = R →
      ops.add (FileMap.get ops m R.FilePath) R = .error Err →
      shiftedLength ops (FileMap.get ops m R.FilePath) R = R.Length →
        ∃ m1, callbackLoop ops Context (T :: rest) m = callbackLoop ops Context rest m1 ∧
          FileMap.get ops m1 R.FilePath =
            ops.merge (FileMap.get ops m R.FilePath) (ops.single
              ⟨R.FilePath,
                ops.getShiftedCodePosition (FileMap.get ops m R.FilePath) R.Offset % 2 ^ 32,
                R.Length, R.ReplacementText⟩) ∧
          ∀ g, g ≠ R.FilePath → FileMap.get ops m1 g = FileMap.get ops m g) ∧
    (∀ (Context : ASTContext) (T : Edit) (rest : List Edit) (m : FileMap Rs) (Added : Rs),
      Replacement.ofRange Context T.Range T.Replacement = R →
      ops.add (FileMap.get ops m R.FilePath) R = .ok Added →
        ∃ m1, callbackLoop ops Context (T :: rest) m = callbackLoop ops Context rest m1 ∧
          FileMap.get ops m1 R.FilePath = Added ∧
          ∀ g, g ≠ R.FilePath → FileMap.get ops m1 g = FileMap.get ops m g) ∧
    (∀ (st : CollectorState) (FileToReplacements m0 : FileMap Rs),
      addDecls ops st.FileToNumberMarkerDecls FileToReplacements = .ok m0 →
        Instrumenter.applyReplacements ops st FileToReplacements =
          addLoop ops st.Replacements.reverse m0 []) ∧
    (∀ (Rule : EditGenerator) (Result : MatchResult) (FileToReplacements : FileMap Rs)
        (Edits : List Edit),
      Result.Context.hasErrorOccurred = false → Rule Result = .ok Edits →
        RuleActionCallback.run ops Rule Result FileToReplacements =
          callbackLoop ops Result.Context Edits FileToReplacements) := by
  have step : ∀ (S : Rs) (Q : Replacement),
      (∃ Err, addOrMerge ops S Q = .error Err) ↔
        ((∃ Err, ops.add S Q = .error Err) ∧ shiftedLength ops S Q ≠ Q.Length) := by
    intro S Q
    unfold addOrMerge
    cases hadd : ops.add S Q with
    | ok Added => simp
    | error Err =>
      by_cases hlen : shiftedLength ops S Q = Q.Length
      · simp [hlen]
      · simp [hlen]
  have merged : ∀ (S : Rs) (Err : String), ops.add S R = .error Err →
      shiftedLength ops S R = R.Length →
        addOrMerge ops S R =
          .ok (ops.merge S (ops.single
              ⟨R.FilePath, ops.getShiftedCodePosition S R.Offset % 2 ^ 32,
                R.Length, R.ReplacementText⟩),
            ⟨R.FilePath, ops.getShiftedCodePosition S R.Offset % 2 ^ 32,
              R.Length, R.ReplacementText⟩) := by
    intro S Err hadd hlen
    simp only [addOrMerge, hadd, hlen, if_true, rebased]
  have added : ∀ (S Added : Rs), ops.add S R = .ok Added →
      addOrMerge ops S R = .ok (Added, R) := by
    intro S Added hadd
    simp only [addOrMerge, hadd]
  refine ⟨merged Replacements, step Replacements R, ?_, ?_, ?_, ?_, ?_, ?_, ?_, ?_, ?_⟩
  · intro h1 h2 h3
    have h4 : ops.getShiftedCodePosition Replacements R.Offset < 2 ^ 32 :=
      lt_of_le_of_lt h3 h2
    simp only [shiftedLength]
    rw [Nat.mod_eq_of_lt h1, Nat.mod_eq_of_lt h2, Nat.mod_eq_of_lt h4]
    omega
  · intro L m visited
    rw [addLoop_abort_iff]
    constructor
    · rintro ⟨pre, R1, post, m1, v1, hL, hpre, herr⟩
      exact ⟨pre, R1, post, m1, v1, hL, hpre, (step _ _).1 herr⟩
    · rintro ⟨pre, R1, post, m1, v1, hL, hpre, herr⟩
      exact ⟨pre, R1, post, m1, v1, hL, hpre, (step _ _).2 herr⟩
  · intro Context L m
    rw [callbackLoop_abort_iff]
    constructor
    · rintro ⟨pre, T, post, m1, hL, hpre, herr⟩
      exact ⟨pre, T, post, m1, hL, hpre, (step _ _).1 herr⟩
    · rintro ⟨pre, T, post, m1, hL, hpre, herr⟩
      exact ⟨pre, T, post, m1, hL, hpre, (step _ _).2 herr⟩
  · intro rest m visited Err hadd hlen
    exact addLoop_stores ops R rest m visited _ _ (merged _ Err hadd hlen)
  · intro rest m visited Added hadd
    exact addLoop_stores ops R rest m visited _ _ (added _ Added hadd)
  · intro Context T rest m Err hR hadd hlen
    subst hR
    exact callbackLoop_stores ops Context T rest m _ _ (merged _ Err hadd hlen)
  · intro Context T rest m Added hR hadd
    subst hR
    exact callbackLoop_stores ops Context T rest m _ _ (added _ Added hadd)
  · intro st FileToReplacements m0 h
    simp only [Instrumenter.applyReplacements, h]
  · intro Rule Result FileToReplacements Edits hE hR
    simp [RuleActionCallback.run, hE, hR]

/-- C2, at a concrete set: the recorded replacement of two characters at
offset 4 rejects a second replacement of the same two characters, whose
shifted length is still 2, so it is merged and nothing aborts, and the loop
of `applyReplacements` leaves the merged set as the set of `main.c`; a
recorded replacement of two characters by five rejects a replacement of the
characters at offsets 5 and 6, whose shifted length is 5, and the step
aborts. -/
theorem addOrMerge_merges_or_aborts_witness :
    (listOps.add [⟨"main.c", 4, 2, "AB"⟩] ⟨"main.c", 4, 2, "CD"⟩ =
        .error "overlapping replacement" ∧
      shiftedLength listOps [⟨"main.c", 4, 2, "AB"⟩] ⟨"main.c", 4, 2, "CD"⟩ = 2 ∧
      addOrMerge listOps [⟨"main.c", 4, 2, "AB"⟩] ⟨"main.c", 4, 2, "CD"⟩ =
        .ok ([⟨"main.c", 4, 2, "AB"⟩, ⟨"main.c", 4, 2, "CD"⟩], ⟨"main.c", 4, 2, "CD"⟩)) ∧
    (shiftedLength listOps [⟨"main.c", 4, 2, "ABCDE"⟩] ⟨"main.c", 5, 2, "x"⟩ = 5 ∧
      ∃ Err, addOrMerge listOps [⟨"main.c", 4, 2, "ABCDE"⟩] ⟨"main.c", 5, 2, "x"⟩ =
        .error Err) ∧
    (Instrumenter.applyReplacements listOps ⟨[⟨"main.c", 4, 2, "CD"⟩], []⟩
        [("main.c", [⟨"main.c", 4, 2, "AB"⟩]), ("util.h", [⟨"util.h", 0, 0, "x"⟩])] =
      .ok ([("main.c", [⟨"main.c", 4, 2, "AB"⟩, ⟨"main.c", 4, 2, "CD"⟩]),
          ("util.h", [⟨"util.h", 0, 0, "x"⟩])], [⟨"main.c", 4, 2, "CD"⟩]) ∧
      ∃ m1, addLoop listOps [⟨"main.c", 4, 2, "CD"⟩]
            [("main.c", [⟨"main.c", 4, 2, "AB"⟩]), ("util.h", [⟨"util.h", 0, 0, "x"⟩])] [] =
          addLoop listOps [] m1 [⟨"main.c", 4, 2, "CD"⟩] ∧
        FileMap.get listOps m1 "main.c" =
          [⟨"main.c", 4, 2, "AB"⟩, ⟨"main.c", 4, 2, "CD"⟩] ∧
        ∀ g, g ≠ "main.c" → FileMap.get listOps m1 g =
          FileMap.get listOps
            [("main.c", [⟨"main.c", 4, 2, "AB"⟩]), ("util.h", [⟨"util.h", 0, 0, "x"⟩])] g) :=
  ⟨⟨by decide, by decide,
      (addOrMerge_merges_or_aborts listOps [⟨"main.c", 4, 2, "AB"⟩]
        ⟨"main.c", 4, 2, "CD"⟩).1 "overlapping replacement" (by decide) (by decide)⟩,
    ⟨by decide,
      (addOrMerge_merges_or_aborts listOps [⟨"main.c", 4, 2, "ABCDE"⟩]
        ⟨"main.c", 5, 2, "x"⟩).2.1.2 ⟨⟨"overlapping replacement", by decide⟩, by decide⟩⟩,
    by decide,
    (addOrMerge_merges_or_aborts listOps [⟨"main.c", 4, 2, "AB"⟩]
      ⟨"main.c", 4, 2, "CD"⟩).2.2.2.2.2.1 []
      [("main.c", [⟨"main.c", 4, 2, "AB"⟩]), ("util.h", [⟨"util.h", 0, 0, "x"⟩])] []
      "overlapping replacement" (by decide) (by decide)⟩

/-! ## Theorems: skipped matches -/

theorem translateEdits_error (Result : MatchResult) (l : List ASTEdit) :
    ∀ (acc : List Edit), (∃ E ∈ l, ∃ e, E.TargetRange Result = .error e) →
      (∃ e, translateEdits Result l acc = .error e) ∨ translateEdits Result l acc = .ok [] := by
  induction l with
  | nil =>
    intro acc h
    obtain ⟨E, hE, _⟩ := h
    simp at hE
  | cons A rest ih =>
    intro acc h
    obtain ⟨E, hE, e, he⟩ := h
    cases hA : A.TargetRange Result with
    | error e1 => exact Or.inl ⟨e1, by simp [translateEdits, hA]⟩
    | ok Range =>
      cases hR : Result.Context.getRangeForEdit Range with
      | none => exact Or.inr (by simp [translateEdits, hA, hR])
      | some EditRange =>
        have hmem : E ∈ rest := by
          rcases List.mem_cons.1 hE with h1 | h1
          · subst h1
            rw [hA] at he
            cases he
          · exact h1
        simpa [translateEdits, hA, hR] using ih _ ⟨E, hmem, e, he⟩

theorem flattenLoop_error (Result : MatchResult) (Gs : List EditGenerator) :
    ∀ (acc : List Edit), (∃ G ∈ Gs, ∃ e, G Result = .error e) →
      ∃ e, flattenLoop Result Gs acc = .error e := by
  induction Gs with
  | nil =>
    intro acc h
    obtain ⟨G, hG, _⟩ := h
    simp at hG
  | cons A rest ih =>
    intro acc h
    obtain ⟨G, hG, e, he⟩ := h
    cases hA : A Result with
    | error e1 => exact ⟨e1, by simp [flattenLoop, hA]⟩
    | ok Edits =>
      have hmem : G ∈ rest := by
        rcases List.mem_cons.1 hG with h1 | h1
        · subst h1
          rw [hA] at he
          cases he
        · exact h1
      simpa [flattenLoop, hA] using ih _ ⟨G, hmem, e, he⟩

theorem statementWithMacrosExpanded_unbound (Result : MatchResult) (ID : String)
    (h : Result.Nodes.lookup ID = none) :
    statementWithMacrosExpanded ID Result = .error (ID ++ "not bound") := by
  simp [statementWithMacrosExpanded, getNode, h]

theorem run_of_no_edits {Rs : Type} (ops : ReplacementsOps Rs) (Rule : EditGenerator)
    (Result : MatchResult) (st : CollectorState) (FileToReplacements : FileMap Rs)
    (h : (∃ e, Rule Result = .error e) ∨ Rule Result = .ok []) :
    RuleActionEditCollector.run Rule Result st = st ∧
      RuleActionCallback.run ops Rule Result FileToReplacements = .ok FileToReplacements := by
  rcases h with ⟨e, he⟩ | he
  · simp [RuleActionEditCollector.run, RuleActionCallback.run, he]
  · simp [RuleActionEditCollector.run, RuleActionCallback.run, he, callbackLoop]

/-- C8: when a parse error has been recorded, or edit generation fails (the
generator returns an error; or a range selector of one edit of an edit list
returns an error; or one generator of a flattened vector returns an error;
or a capture the generators of the source expect is not bound), the call of
`RuleActionEditCollector::run` returns the state unchanged (no replacement
appended, every marker counter as before) and the call of
`RuleActionCallback::run` returns normally with the map unchanged. -/
theorem run_skips_failed_match {Rs : Type} (ops : ReplacementsOps Rs) (Rule : EditGenerator)
    (Result : MatchResult) (st : CollectorState) (FileToReplacements : FileMap Rs)
    (h : Result.Context.hasErrorOccurred = true ∨
      (∃ e, Rule Result = .error e) ∨
      (∃ Edits E, Rule = editList Edits ∧ E ∈ Edits ∧ ∃ e, E.TargetRange Result = .error e) ∨
      (∃ Gs G, Rule = flattenVector Gs ∧ G ∈ Gs ∧ ∃ e, G Result = .error e) ∨
      (∃ ID, Result.Nodes.lookup ID = none ∧
        (Rule = InstrumentNonCStmt ID ∨ Rule = edit (InstrumentCStmt ID) ∨
          ((ID = "body" ∨ ID = "dostmt") ∧ Rule = editList doWhileAction)))) :
    RuleActionEditCollector.run Rule Result st = st ∧
      RuleActionCallback.run ops Rule Result FileToReplacements = .ok FileToReplacements := by
  rcases h with h | h | ⟨Edits, E, rfl, hE, he⟩ | ⟨Gs, G, rfl, hG, he⟩ | ⟨ID, hID, h⟩
  · simp [RuleActionEditCollector.run, RuleActionCallback.run, h]
  · exact run_of_no_edits ops Rule Result st FileToReplacements (Or.inl h)
  · exact run_of_no_edits ops _ Result st FileToReplacements
      (translateEdits_error Result Edits [] ⟨E, hE, he⟩)
  · exact run_of_no_edits ops _ Result st FileToReplacements
      (Or.inl (flattenLoop_error Result Gs [] ⟨G, hG, he⟩))
  · have hs := statementWithMacrosExpanded_unbound Result ID hID
    rcases h with rfl | rfl | ⟨hb, rfl⟩
    · apply run_of_no_edits
      left
      exact ⟨ID ++ "not bound", by
        simp [InstrumentNonCStmt, flattenVector, flattenLoop, edit, editList, translateEdits,
          addMarker, withMetadata, insertBefore, changeTo, before, hs]⟩
    · apply run_of_no_edits
      left
      exact ⟨ID ++ "not bound", by
        simp [InstrumentCStmt, edit, editList, translateEdits, addMarker, withMetadata,
          insertBefore, changeTo, before, statements, getNode, hID]⟩
    · apply run_of_no_edits
      apply translateEdits_error
      rcases hb with rfl | rfl
      · exact ⟨_, List.mem_cons_self _ _, "body" ++ "not bound", by
          simp [addMarker, withMetadata, insertBefore, changeTo, before, hs]⟩
      · exact ⟨_, List.mem_cons_of_mem _ (List.mem_cons_self _ _), "dostmt" ++ "not bound", by
          simp [insertBefore, changeTo, before, doStmtWhile, getNode, hID]⟩

/-- C8, at a do-while match in which the capture `dostmt` is not bound: the
edit of the bound capture `body` is dropped too, and the state, which holds
a replacement and a counter, is returned as it was. -/
theorem run_skips_failed_match_witness :
    RuleActionEditCollector.run (editList doWhileAction)
        ⟨[("body", .stmt ⟨.Other, ⟨3⟩, ⟨5⟩, false⟩)], textContext "do x(); while(cond);" []⟩
        ⟨[⟨"main.c", 0, 0, "x"⟩], [("main.c", 1)]⟩ =
      ⟨[⟨"main.c", 0, 0, "x"⟩], [("main.c", 1)]⟩ ∧
    RuleActionCallback.run listOps (editList doWhileAction)
        ⟨[("body", .stmt ⟨.Other, ⟨3⟩, ⟨5⟩, false⟩)], textContext "do x(); while(cond);" []⟩
        [("main.c", [⟨"main.c", 0, 0, "x"⟩])] =
      .ok [("main.c", [⟨"main.c", 0, 0, "x"⟩])] :=
  run_skips_failed_match listOps (editList doWhileAction)
    ⟨[("body", .stmt ⟨.Other, ⟨3⟩, ⟨5⟩, false⟩)], textContext "do x(); while(cond);" []⟩
    ⟨[⟨"main.c", 0, 0, "x"⟩], [("main.c", 1)]⟩ [("main.c", [⟨"main.c", 0, 0, "x"⟩])]
    (Or.inr (Or.inr (Or.inr (Or.inr ⟨"dostmt", by decide, Or.inr (Or.inr ⟨Or.inr rfl, rfl⟩)⟩))))

/-! ## Theorems: marker numbering and declarations -/

theorem postIncrement_filter_ne (m : List (String × Nat)) (f g : String) (h : g ≠ f) :
    (postIncrement m f).2.filter (fun p => decide (p.1 = g)) =
      m.filter (fun p => decide (p.1 = g)) := by
  induction m with
  | nil => simp [postIncrement, h.symm]
  | cons q rest ih =>
    obtain ⟨F, n⟩ := q
    by_cases hF : F = f
    · subst hF
      simp [postIncrement, List.filter_cons, h.symm]
    · simp [postIncrement, hF, List.filter_cons, ih]

theorem postIncrement_filter_eq (m : List (String × Nat)) (f : String) :
    (postIncrement m f).2.filter (fun p => decide (p.1 = f)) =
        (match m.filter (fun p => decide (p.1 = f)) with
          | [] => [(f, 1)]
          | q :: t => (q.1, q.2 + 1) :: t) ∧
      (postIncrement m f).1 =
        (match m.filter (fun p => decide (p.1 = f)) with
          | [] => 0
          | q :: _ => q.2) := by
  induction m with
  | nil => simp [postIncrement]
  | cons q rest ih =>
    obtain ⟨F, n⟩ := q
    by_cases hF : F = f
    · subst hF
      simp [postIncrement, List.filter_cons]
    · simp [postIncrement, hF, List.filter_cons, ih]

theorem markerCount_snoc (File : String) (earlier : List (ASTContext × Edit))
    (p : ASTContext × Edit) :
    markerCount File (earlier ++ [p]) =
      markerCount File earlier + if isMarkerOf File p = true then 1 else 0 := by
  simp [markerCount, List.countP_append, List.countP_cons]

theorem collectEdit_step (earlier : List (ASTContext × Edit)) (p : ASTContext × Edit)
    (st : CollectorState) (h : CountersAgree st.FileToNumberMarkerDecls earlier) :
    (collectEdit p.1 st p.2).Replacements = st.Replacements ++ [expectedReplacement earlier p] ∧
      CountersAgree (collectEdit p.1 st p.2).FileToNumberMarkerDecls (earlier ++ [p]) := by
  by_cases hm : isMarker p.2 = true
  · have hN : (postIncrement st.FileToNumberMarkerDecls (editFile p)).1 =
        markerCount (editFile p) earlier := by
      rw [(postIncrement_filter_eq _ _).2, h (editFile p)]
      by_cases h0 : markerCount (editFile p) earlier = 0
      · simp [h0]
      · simp [h0]
    constructor
    · simp only [collectEdit, hm, if_true, expectedReplacement]
      rw [← hN]
      rfl
    · intro File
      by_cases hF : File = editFile p
      · subst hF
        have hmo : isMarkerOf (editFile p) p = true := by simp [isMarkerOf, hm]
        have hfil := (postIncrement_filter_eq st.FileToNumberMarkerDecls (editFile p)).1
        simp only [collectEdit, hm, if_true]
        rw [markerCount_snoc, hmo]
        change List.filter (fun q => decide (q.1 = editFile p))
          (postIncrement st.FileToNumberMarkerDecls (editFile p)).2 = _
        rw [hfil, h (editFile p)]
        by_cases h0 : markerCount (editFile p) earlier = 0
        · simp [h0]
        · simp [h0]
      · have hmo : isMarkerOf File p = false := by
          simp [isMarkerOf, hm, Ne.symm hF]
        simp only [collectEdit, hm, if_true]
        rw [markerCount_snoc, hmo]
        change List.filter (fun q => decide (q.1 = File))
          (postIncrement st.FileToNumberMarkerDecls (editFile p)).2 = _
        rw [postIncrement_filter_ne _ _ _ hF, h File]
        simp
  · have hm2 : isMarker p.2 = false := by simpa using hm
    constructor
    · simp [collectEdit, hm2, expectedReplacement]
    · intro File
      have hmo : isMarkerOf File p = false := by simp [isMarkerOf, hm2]
      simp only [collectEdit, hm2]
      rw [markerCount_snoc, hmo]
      simpa using h File

theorem collect_foldl (es : List (ASTContext × Edit)) :
    ∀ (earlier : List (ASTContext × Edit)) (st : CollectorState),
      CountersAgree st.FileToNumberMarkerDecls earlier →
      (es.foldl (fun st p => collectEdit p.1 st p.2) st).Replacements =
          st.Replacements ++ expectedReplacements earlier es ∧
        CountersAgree (es.foldl (fun st p => collectEdit p.1 st p.2) st).FileToNumberMarkerDecls
          (earlier ++ es) := by
  induction es with
  | nil =>
    intro earlier st h
    simpa [expectedReplacements] using h
  | cons p rest ih =>
    intro earlier st h
    obtain ⟨h1, h2⟩ := collectEdit_step earlier p st h
    obtain ⟨h3, h4⟩ := ih (earlier ++ [p]) _ h2
    constructor
    · simp only [List.foldl_cons, h3, h1, expectedReplacements]
      simp
    · simpa using h4

theorem run_eq_foldl (m : EditGenerator × MatchResult) (st : CollectorState) :
    RuleActionEditCollector.run m.1 m.2 st =
      (collectedEdits m).foldl (fun st p => collectEdit p.1 st p.2) st := by
  unfold RuleActionEditCollector.run collectedEdits
  by_cases hE : m.2.Context.hasErrorOccurred = true
  · simp [hE]
  · cases hR : m.1 m.2 with
    | error e => simp [hE]
    | ok Edits => simp [hE, List.foldl_map]

theorem collectAll_eq_foldl (Matches : List (EditGenerator × MatchResult)) :
    ∀ st : CollectorState, collectAll Matches st =
      (allCollectedEdits Matches).foldl (fun st p => collectEdit p.1 st p.2) st := by
  induction Matches with
  | nil => intro st; rfl
  | cons m rest ih =>
    intro st
    have h := ih (RuleActionEditCollector.run m.1 m.2 st)
    simp only [collectAll, List.foldl_cons] at h ⊢
    rw [h, run_eq_foldl, allCollectedEdits, List.foldl_append]

theorem collectAll_agree (Matches : List (EditGenerator × MatchResult)) :
    (collectAll Matches ⟨[], []⟩).Replacements =
        expectedReplacements [] (allCollectedEdits Matches) ∧
      CountersAgree (collectAll Matches ⟨[], []⟩).FileToNumberMarkerDecls
        (allCollectedEdits Matches) := by
  have h0 : CountersAgree (CollectorState.mk [] []).FileToNumberMarkerDecls [] := by
    intro File
    simp [markerCount]
  have h := collect_foldl (allCollectedEdits Matches) [] ⟨[], []⟩ h0
  rw [← collectAll_eq_foldl] at h
  simpa using h

theorem markerNumbers_eq_range' (File : String) (es : List (ASTContext × Edit)) :
    ∀ earlier : List (ASTContext × Edit),
      markerNumbers File earlier es =
        List.range' (markerCount File earlier) (markerCount File es) := by
  induction es with
  | nil => intro earlier; simp [markerNumbers, markerCount]
  | cons p rest ih =>
    intro earlier
    by_cases hm : isMarkerOf File p = true
    · have hf : editFile p = File := by
        simp only [isMarkerOf, Bool.and_eq_true, decide_eq_true_eq] at hm
        exact hm.2
      have hc : markerCount File (p :: rest) = markerCount File rest + 1 := by
        simp [markerCount, List.countP_cons, hm]
      simp only [markerNumbers, hm, if_true, ih, markerCount_snoc, hc, List.range'_succ, hf]
    · have hm2 : isMarkerOf File p = false := by simpa using hm
      have hc : markerCount File (p :: rest) = markerCount File rest := by
        simp [markerCount, List.countP_cons, hm2]
      simp [markerNumbers, hm2, ih, markerCount_snoc, hc]

theorem join_cons (a : String) (l : List String) : String.join (a :: l) = a ++ String.join l := by
  have h : ∀ (l : List String) (acc : String),
      List.foldl (fun r s => r ++ s) acc l = acc ++ List.foldl (fun r s => r ++ s) "" l := by
    intro l
    induction l with
    | nil => intro acc; simp
    | cons b t ih =>
      intro acc
      simp only [List.foldl_cons]
      rw [ih (acc ++ b), ih ("" ++ b), String.empty_append, String.append_assoc]
  simp only [String.join, List.foldl_cons]
  rw [h l ("" ++ a), String.empty_append]

theorem generate_n_eq (n : Nat) :
    ∀ (i : Nat) (ss : String),
      generate_n n i ss = ss ++ String.join ((List.range' i n).map declText) := by
  induction n with
  | zero => intro i ss; simp [generate_n, String.join]
  | succ k ih =>
    intro i ss
    have hg : gen i = (declText i, i + 1) := rfl
    simp only [generate_n, hg, ih, List.range'_succ, List.map_cons, join_cons,
      String.append_assoc]

theorem Decls_eq (N : Nat) : Decls N = String.join ((List.range N).map declText) := by
  rw [Decls, generate_n_eq, String.empty_append, List.range_eq_range']

theorem addDecls_eq (Rs : Type) (ops : ReplacementsOps Rs) (counters : List (String × Nat)) :
    ∀ m : FileMap Rs, addDecls ops counters m = addAllToFiles ops (declReplacements counters) m := by
  induction counters with
  | nil => intro m; rfl
  | cons q rest ih =>
    intro m
    obtain ⟨File, N⟩ := q
    simp only [addDecls, declReplacements, List.map_cons, addAllToFiles, addToFile]
    cases hadd : ops.add (FileMap.get ops m (declReplacement File N).FilePath)
        (declReplacement File N) with
    | error Err =>
      have hadd2 : ops.add (FileMap.get ops m File) (declReplacement File N) = .error Err := hadd
      simp [hadd2]
    | ok rs =>
      have hadd2 : ops.add (FileMap.get ops m File) (declReplacement File N) = .ok rs := hadd
      simp only [hadd2]
      exact ih _

/-- C1: over every sequence of matches handed to `RuleActionEditCollector::run`
from empty counters, and for every file with `M` collected `MarkerCall`
edits: the replacements recorded are the expected ones, in which the k-th
`MarkerCall` edit of a file calls `marker_k`; the marker numbers written for
the file are exactly 0, 1, ..., M-1 in collection order; and the counter map
makes `applyReplacements` declare exactly `marker_0` .. `marker_{M-1}` for the
file (one declaration replacement listing them in order when `M` is
positive, none when `M` is zero), these declaration replacements being what
its first loop adds before the collected replacements are merged. -/
theorem marker_numbers_contiguous (Matches : List (EditGenerator × MatchResult))
    (File : String) :
    (collectAll Matches ⟨[], []⟩).Replacements =
        expectedReplacements [] (allCollectedEdits Matches) ∧
    markerNumbers File [] (allCollectedEdits Matches) =
        List.range (markerCount File (allCollectedEdits Matches)) ∧
    (declReplacements (collectAll Matches ⟨[], []⟩).FileToNumberMarkerDecls).filter
        (fun R => decide (R.FilePath = File)) =
      (if markerCount File (allCollectedEdits Matches) = 0 then []
        else [⟨File, 0, 0, String.join
          ((List.range (markerCount File (allCollectedEdits Matches))).map declText)⟩]) ∧
    (∀ (Rs : Type) (ops : ReplacementsOps Rs) (FileToReplacements : FileMap Rs),
      Instrumenter.applyReplacements ops (collectAll Matches ⟨[], []⟩) FileToReplacements =
        match addAllToFiles ops
          (declReplacements (collectAll Matches ⟨[], []⟩).FileToNumberMarkerDecls)
          FileToReplacements with
        | .error Err => .error Err
        | .ok m => addLoop ops (collectAll Matches ⟨[], []⟩).Replacements.reverse m []) := by
  obtain ⟨h1, h2⟩ := collectAll_agree Matches
  refine ⟨h1, ?_, ?_, ?_⟩
  rotate_left 2
  · intro Rs ops FileToReplacements
    simp only [Instrumenter.applyReplacements, addDecls_eq]
  · rw [markerNumbers_eq_range', List.range_eq_range']
    simp [markerCount]
  · have hf : (declReplacements (collectAll Matches ⟨[], []⟩).FileToNumberMarkerDecls).filter
          (fun R => decide (R.FilePath = File)) =
        ((collectAll Matches ⟨[], []⟩).FileToNumberMarkerDecls.filter
          (fun p => decide (p.1 = File))).map (fun p => declReplacement p.1 p.2) := by
      simp only [declReplacements, List.filter_map]
      rfl
    rw [hf, h2 File]
    by_cases h0 : markerCount File (allCollectedEdits Matches) = 0
    · simp [h0]
    · simp [h0, declReplacement, Decls_eq]

/-- C9: for every file with marker count `N` in the counter map reached by
the collectors, the first loop of `Instrumenter::applyReplacements` passes
to `add` exactly one replacement for that file; it has offset 0 and length 0
and its text is the concatenation, for k = 0 .. N-1 in increasing order, of
the definitions of the `noinline` functions `marker_k`, each printing its own
index k; `N` is the number of `MarkerCall` edits collected for the file. -/
theorem applyReplacements_declares_markers {Rs : Type} (ops : ReplacementsOps Rs)
    (Matches : List (EditGenerator × MatchResult)) (File : String) (N : Nat)
    (h : (File, N) ∈ (collectAll Matches ⟨[], []⟩).FileToNumberMarkerDecls) :
    (declReplacements (collectAll Matches ⟨[], []⟩).FileToNumberMarkerDecls).filter
        (fun R => decide (R.FilePath = File)) =
      [⟨File, 0, 0, String.join ((List.range N).map declText)⟩] ∧
    N = markerCount File (allCollectedEdits Matches) ∧
    (∀ k, declText k =
      "void  __attribute__ ((noinline)) marker_" ++ toString k ++ "(void) \x7b printf(\" b" ++
        toString k ++ "b \");\x7d \n") ∧
    (∀ (FileToReplacements : FileMap Rs),
      Instrumenter.applyReplacements ops (collectAll Matches ⟨[], []⟩) FileToReplacements =
        match addAllToFiles ops
          (declReplacements (collectAll Matches ⟨[], []⟩).FileToNumberMarkerDecls)
          FileToReplacements with
        | .error Err => .error Err
        | .ok m => addLoop ops (collectAll Matches ⟨[], []⟩).Replacements.reverse m []) := by
  obtain ⟨_, h2⟩ := collectAll_agree Matches
  have hmem : (File, N) ∈ (collectAll Matches ⟨[], []⟩).FileToNumberMarkerDecls.filter
      (fun p => decide (p.1 = File)) := by
    simp [List.mem_filter, h]
  rw [h2 File] at hmem
  have hN : markerCount File (allCollectedEdits Matches) ≠ 0 ∧
      N = markerCount File (allCollectedEdits Matches) := by
    by_cases h0 : markerCount File (allCollectedEdits Matches) = 0
    · simp [h0] at hmem
    · simp [h0] at hmem
      exact ⟨h0, hmem⟩
  refine ⟨?_, hN.2, fun k => rfl, ?_⟩
  · have hf : (declReplacements (collectAll Matches ⟨[], []⟩).FileToNumberMarkerDecls).filter
          (fun R => decide (R.FilePath = File)) =
        ((collectAll Matches ⟨[], []⟩).FileToNumberMarkerDecls.filter
          (fun p => decide (p.1 = File))).map (fun p => declReplacement p.1 p.2) := by
      simp only [declReplacements, List.filter_map]
      rfl
    rw [hf, h2 File, hN.2]
    simp [hN.1, declReplacement, Decls_eq]
  · intro FileToReplacements
    simp only [Instrumenter.applyReplacements, addDecls_eq]

/-- C9, at the single match of the if rule on `if (c) foo();`: the file
`main.c` has marker count 1 and gets the one declaration of `marker_0`. -/
theorem applyReplacements_declares_markers_witness :
    (declReplacements (collectAll
        [(instrumentIfStmt_actions,
          ⟨[("then", .stmt ifExample.Then)], textContext "if (c) foo();" []⟩)]
        ⟨[], []⟩).FileToNumberMarkerDecls).filter (fun R => decide (R.FilePath = "main.c")) =
      [⟨"main.c", 0, 0, String.join ((List.range 1).map declText)⟩] :=
  (applyReplacements_declares_markers listOps
    [(instrumentIfStmt_actions, ⟨[("then", .stmt ifExample.Then)], textContext "if (c) foo();" []⟩)]
    "main.c" 1 (by decide)).1

/-! ## Theorems: the if rule and the loop rule -/

theorem getRangeSize_empty (Context : ASTContext) (L : SourceLocation) :
    getRangeSize Context (CharSourceRange.getCharRange L L) = 0 := by
  simp only [getRangeSize, CharSourceRange.getCharRange]
  simp only [ne_eq, not_true_eq_false, if_false, Bool.false_eq_true]
  omega

theorem ofRange_empty (Context : ASTContext) (L : SourceLocation) (Text : String) :
    Replacement.ofRange Context (CharSourceRange.getCharRange L L) Text =
      ⟨fileOf Context L, offsetOf Context L, 0, Text⟩ := by
  simp only [Replacement.ofRange, getRangeSize_empty]
  rfl

theorem filename_empty (Context : ASTContext) (L E : SourceLocation) :
    GetFilenameFromRange (CharSourceRange.getCharRange L E) Context.SM = fileOf Context L := rfl

theorem InstrumentNonCStmt_ok (Result : MatchResult) (id : String) (S : Stmt)
    (h : Result.Nodes.lookup id = some (DynTypedNode.stmt S))
    (hB : Result.Context.getRangeForEdit
        (CharSourceRange.getCharRange (stmtBegin Result.Context S) (stmtBegin Result.Context S)) =
      some (CharSourceRange.getCharRange (stmtBegin Result.Context S) (stmtBegin Result.Context S)))
    (hA : Result.Context.getRangeForEdit
        (CharSourceRange.getCharRange (stmtEnd Result.Context S) (stmtEnd Result.Context S)) =
      some (CharSourceRange.getCharRange (stmtEnd Result.Context S) (stmtEnd Result.Context S))) :
    InstrumentNonCStmt id Result =
      .ok [⟨CharSourceRange.getCharRange (stmtBegin Result.Context S) (stmtBegin Result.Context S),
              "\x7b", some EditMetadataKind.MarkerCall⟩,
           ⟨CharSourceRange.getCharRange (stmtEnd Result.Context S) (stmtEnd Result.Context S),
              "\n\x7d", none⟩] := by
  have hs : statementWithMacrosExpanded id Result = .ok (stmtRange Result.Context S) := by
    simp [statementWithMacrosExpanded, getNode, h, stmtRange]
  have hb : before (statementWithMacrosExpanded id) Result =
      .ok (CharSourceRange.getCharRange (stmtBegin Result.Context S) (stmtBegin Result.Context S)) := by
    simp [before, hs, stmtBegin]
  have ha : after (statementWithMacrosExpanded id) Result =
      .ok (CharSourceRange.getCharRange (stmtEnd Result.Context S) (stmtEnd Result.Context S)) := by
    simp only [after, hs, stmtEnd]
    by_cases hT : (stmtRange Result.Context S).IsTokenRange = true
    · simp [hT]
    · simp [hT]
  simp [InstrumentNonCStmt, flattenVector, flattenLoop, edit, editList, translateEdits,
    addMarker, withMetadata, insertBefore, insertAfter, changeTo, hb, ha, hB, hA]

theorem postIncrement_counterOf (m : List (String × Nat)) (f : String) :
    (postIncrement m f).1 = counterOf m f ∧
      counterOf (postIncrement m f).2 f = counterOf m f + 1 ∧
      ∀ g, g ≠ f → counterOf (postIncrement m f).2 g = counterOf m g := by
  refine ⟨?_, ?_, ?_⟩
  · rw [(postIncrement_filter_eq m f).2]
    rfl
  · simp only [counterOf]
    rw [(postIncrement_filter_eq m f).1]
    cases m.filter (fun p => decide (p.1 = f)) with
    | nil => rfl
    | cons q t => rfl
  · intro g hg
    simp only [counterOf]
    rw [postIncrement_filter_ne m f g hg]

theorem applyAll_wrap (pre S post : List Char) (f g : String) (opening closing : String) :
    applyAllReplacements ⟨pre ++ S ++ post⟩
        [⟨f, pre.length, 0, opening⟩, ⟨g, pre.length + S.length, 0, closing⟩] =
      ⟨pre ++ opening.data ++ S ++ closing.data ++ post⟩ := by
  have hsort : reverseSourceOrder
      [⟨f, pre.length, 0, opening⟩, ⟨g, pre.length + S.length, 0, closing⟩] =
      [⟨g, pre.length + S.length, 0, closing⟩, ⟨f, pre.length, 0, opening⟩] := by
    simp [reverseSourceOrder, List.insertionSort, List.orderedInsert]
  simp only [applyAllReplacements, hsort, List.foldl_cons, List.foldl_nil, applyReplacement,
    Nat.add_zero]
  congr 1
  have h1 : List.take (pre.length + S.length) (pre ++ S ++ post) = pre ++ S := by
    rw [← List.length_append]
    exact List.take_left _ _
  have h2 : List.drop (pre.length + S.length) (pre ++ S ++ post) = post := by
    rw [← List.length_append]
    exact List.drop_left _ _
  rw [h1, h2]
  have h3 : List.take pre.length (pre ++ S ++ closing.data ++ post) = pre := by
    simp [List.append_assoc]
  have h4 : List.drop pre.length (pre ++ S ++ closing.data ++ post) = S ++ closing.data ++ post := by
    simp [List.append_assoc]
  rw [h3, h4]
  simp [List.append_assoc]

theorem ctokensAux_append (xs : List Char) :
    ∀ (cur ys : List Char),
      ctokensAux (xs ++ ys) cur = closedTokens xs cur ++ ctokensAux ys (pendingWord xs cur) := by
  induction xs with
  | nil => intro cur ys; simp [closedTokens, pendingWord]
  | cons c cs ih =>
    intro cur ys
    by_cases hi : isIdentChar c = true
    · simp [ctokensAux, closedTokens, pendingWord, hi, ih]
    · by_cases hs : isSpace c = true
      · simp [ctokensAux, closedTokens, pendingWord, hi, hs, ih]
      · simp [ctokensAux, closedTokens, pendingWord, hi, hs, ih]

theorem ctokensAux_ident (ds : List Char) (hd : ∀ c ∈ ds, isIdentChar c = true) :
    ∀ (cur ys : List Char), ctokensAux (ds ++ ys) cur = ctokensAux ys (cur ++ ds) := by
  induction ds with
  | nil => intro cur ys; simp
  | cons c cs ih =>
    intro cur ys
    have hc : isIdentChar c = true := hd c (List.mem_cons_self _ _)
    have hcs : ∀ x ∈ cs, isIdentChar x = true := fun x hx => hd x (List.mem_cons_of_mem _ hx)
    simp [ctokensAux, hc, ih hcs]

theorem digitChar_ident (d : Nat) (h : d < 10) : isIdentChar (Nat.digitChar d) = true := by
  interval_cases d <;> decide

theorem toDigitsCore_ident (fuel : Nat) :
    ∀ (n : Nat) (ds : List Char), (∀ c ∈ ds, isIdentChar c = true) →
      ∀ c ∈ Nat.toDigitsCore 10 fuel n ds, isIdentChar c = true := by
  induction fuel with
  | zero => intro n ds h; simpa [Nat.toDigitsCore] using h
  | succ k ih =>
    intro n ds h
    have hd : isIdentChar (Nat.digitChar (n % 10)) = true :=
      digitChar_ident _ (Nat.mod_lt _ (by decide))
    have hds : ∀ c ∈ Nat.digitChar (n % 10) :: ds, isIdentChar c = true := by
      intro c hc
      rcases List.mem_cons.1 hc with h1 | h1
      · rw [h1]; exact hd
      · exact h c h1
    simp only [Nat.toDigitsCore]
    by_cases h0 : n / 10 = 0
    · simpa [h0] using hds
    · simp only [h0, if_false]
      exact ih _ _ hds

theorem toString_ident (k : Nat) : ∀ c ∈ (toString k).data, isIdentChar c = true := by
  have h : (toString k).data = Nat.toDigits 10 k := rfl
  rw [h]
  exact toDigitsCore_ident _ _ _ (by simp)

theorem ctokens_marker (p q p2 q2 : String) (k : Nat) (w : List Char)
    (hp : closedTokens p.data [] = closedTokens p2.data [])
    (hw : pendingWord p.data [] = w) (hw2 : pendingWord p2.data [] = w)
    (hq : ∀ cur, ctokensAux q.data cur = ctokensAux q2.data cur) :
    ctokens (p ++ toString k ++ q) = ctokens (p2 ++ toString k ++ q2) := by
  simp only [ctokens, String.data_append, List.append_assoc]
  rw [ctokensAux_append p.data, ctokensAux_append p2.data,
    ctokensAux_ident _ (toString_ident k), ctokensAux_ident _ (toString_ident k),
    hp, hw, hw2, hq]

theorem ifRule_bare_core (Context : ASTContext) (Node : IfStmt) (st : CollectorState)
    (hParse : Context.hasErrorOccurred = false)
    (hParen : RParenNotInMacroAndInMain Context.SM Node = true)
    (hElse : Node.Else = none)
    (hBare : ¬ (Node.Then.cls = StmtClass.CompoundStmt ∧
      inMainAndNotMacro Context.SM Node.Then = true))
    (hBefore : Context.getRangeForEdit
        (CharSourceRange.getCharRange (stmtBegin Context Node.Then) (stmtBegin Context Node.Then)) =
      some (CharSourceRange.getCharRange (stmtBegin Context Node.Then) (stmtBegin Context Node.Then)))
    (hAfter : Context.getRangeForEdit
        (CharSourceRange.getCharRange (stmtEnd Context Node.Then) (stmtEnd Context Node.Then)) =
      some (CharSourceRange.getCharRange (stmtEnd Context Node.Then) (stmtEnd Context Node.Then))) :
    ifEdits Context Node =
        [⟨CharSourceRange.getCharRange (stmtBegin Context Node.Then) (stmtBegin Context Node.Then),
            "\x7b", some EditMetadataKind.MarkerCall⟩,
          ⟨CharSourceRange.getCharRange (stmtEnd Context Node.Then) (stmtEnd Context Node.Then),
            "\n\x7d", none⟩] ∧
      runIfRule Context Node st =
        ⟨st.Replacements ++
          [⟨fileOf Context (stmtBegin Context Node.Then), offsetOf Context (stmtBegin Context Node.Then),
              0, "\x7b" ++ "marker_" ++
                toString (counterOf st.FileToNumberMarkerDecls
                  (fileOf Context (stmtBegin Context Node.Then))) ++ "();"⟩,
            ⟨fileOf Context (stmtEnd Context Node.Then), offsetOf Context (stmtEnd Context Node.Then),
              0, "\n\x7d"⟩],
          (postIncrement st.FileToNumberMarkerDecls
            (fileOf Context (stmtBegin Context Node.Then))).2⟩ := by
  have hm : instrumentIfStmt_matcher Context.SM Node =
      some [("then", DynTypedNode.stmt Node.Then)] := by
    simp [instrumentIfStmt_matcher, hParen, elseBindings, hElse, thenBindings, hBare]
  have hN := InstrumentNonCStmt_ok ⟨[("then", DynTypedNode.stmt Node.Then)], Context⟩ "then"
    Node.Then (by simp [List.lookup]) hBefore hAfter
  have ha : instrumentIfStmt_actions ⟨[("then", DynTypedNode.stmt Node.Then)], Context⟩ =
      .ok [⟨CharSourceRange.getCharRange (stmtBegin Context Node.Then) (stmtBegin Context Node.Then),
            "\x7b", some EditMetadataKind.MarkerCall⟩,
          ⟨CharSourceRange.getCharRange (stmtEnd Context Node.Then) (stmtEnd Context Node.Then),
            "\n\x7d", none⟩] := by
    simp +decide [instrumentIfStmt_actions, flattenVector, flattenLoop, ifBound, isBound, noEdits,
      List.lookup, hN]
  constructor
  · simp [ifEdits, hm, hParse, ha]
  · simp only [runIfRule, hm, RuleActionEditCollector.run, hParse, ha]
    simp [collectEdit, isMarker, ofRange_empty, filename_empty,
      (postIncrement_counterOf _ _).1]

theorem setEnd_self (R : CharSourceRange) : R.setEnd R.End = R := by
  cases R; rfl

theorem stmtRange_semi (Context : ASTContext) (S : Stmt) (p : SourceLocation)
    (h1 : handleReturnStmts (DynTypedNode.stmt S)
        (Context.SM.getExpansionRange (CharSourceRange.getTokenRange S.BeginLoc S.EndLoc)).End
        Context.SM =
      (Context.SM.getExpansionRange (CharSourceRange.getTokenRange S.BeginLoc S.EndLoc)).End)
    (h2 : Context.maybeExtendRange
        (Context.SM.getExpansionRange (CharSourceRange.getTokenRange S.BeginLoc S.EndLoc))
        TokenKind.comment =
      Context.SM.getExpansionRange (CharSourceRange.getTokenRange S.BeginLoc S.EndLoc))
    (h3 : Context.maybeExtendRange
        (Context.SM.getExpansionRange (CharSourceRange.getTokenRange S.BeginLoc S.EndLoc))
        TokenKind.semi =
      CharSourceRange.getTokenRange
        (Context.SM.getExpansionRange (CharSourceRange.getTokenRange S.BeginLoc S.EndLoc)).Begin p)
    (h4 : Context.SM.getExpansionRange (CharSourceRange.getTokenRange
        (Context.SM.getExpansionRange (CharSourceRange.getTokenRange S.BeginLoc S.EndLoc)).Begin p) =
      CharSourceRange.getTokenRange
        (Context.SM.getExpansionRange (CharSourceRange.getTokenRange S.BeginLoc S.EndLoc)).Begin p) :
    stmtBegin Context S =
        (Context.SM.getExpansionRange (CharSourceRange.getTokenRange S.BeginLoc S.EndLoc)).Begin ∧
      stmtEnd Context S = Context.getLocForEndOfToken p := by
  have hr : stmtRange Context S = CharSourceRange.getTokenRange
      (Context.SM.getExpansionRange (CharSourceRange.getTokenRange S.BeginLoc S.EndLoc)).Begin p := by
    simp only [stmtRange, getExtendedRangeWithCommentsAndSemi, DynTypedNode.getSourceRange]
    rw [h1, setEnd_self, h2, h3, h4]
  simp [stmtBegin, stmtEnd, hr, CharSourceRange.getTokenRange]

theorem returnIfExample_text (k : Nat) :
    applyAllReplacements "if (c) return;\n"
        (runIfRule (textContext "if (c) return;\n" []) returnIfExample ⟨[], [("main.c", k)]⟩).Replacements =
      "if (c) \x7bmarker_" ++ toString k ++ "();return;\n\x7d\n" := by
  have h := (ifRule_bare_core (textContext "if (c) return;\n" []) returnIfExample
    ⟨[], [("main.c", k)]⟩
    (by decide) (by decide) (by decide) (by decide) (by decide) (by decide)).2
  have hb : fileOf (textContext "if (c) return;\n" [])
      (stmtBegin (textContext "if (c) return;\n" []) returnIfExample.Then) = "main.c" := by decide
  have he : fileOf (textContext "if (c) return;\n" [])
      (stmtEnd (textContext "if (c) return;\n" []) returnIfExample.Then) = "main.c" := by decide
  have hob : offsetOf (textContext "if (c) return;\n" [])
      (stmtBegin (textContext "if (c) return;\n" []) returnIfExample.Then) =
        "if (c) ".data.length := by decide
  have hoe : offsetOf (textContext "if (c) return;\n" [])
      (stmtEnd (textContext "if (c) return;\n" []) returnIfExample.Then) =
        "if (c) ".data.length + "return;".data.length := by decide
  have hk : counterOf [("main.c", k)] "main.c" = k := by simp [counterOf]
  rw [h, hb, he, hob, hoe, hk]
  have ht : ("if (c) return;\n" : String) = ⟨"if (c) ".data ++ "return;".data ++ "\n".data⟩ := by
    decide
  rw [ht]
  simp only [List.nil_append]
  rw [applyAll_wrap]
  apply String.ext
  simp [String.data_append, List.append_assoc]

theorem doWhile_core (Context : ASTContext) (Node : LoopStmt) (st : CollectorState)
    (hParse : Context.hasErrorOccurred = false)
    (hDo : Node.cls = StmtClass.DoStmt)
    (hBare : Node.Body.cls ≠ StmtClass.CompoundStmt)
    (hLoc : DoAndWhileNotMacroAndInMain Context.SM Node = true)
    (hWhile : (Context.SM.getExpansionRange
        (CharSourceRange.getTokenRange Node.WhileLoc Node.WhileLoc)).Begin = Node.WhileLoc)
    (hBefore : Context.getRangeForEdit
        (CharSourceRange.getCharRange (stmtBegin Context Node.Body) (stmtBegin Context Node.Body)) =
      some (CharSourceRange.getCharRange (stmtBegin Context Node.Body) (stmtBegin Context Node.Body)))
    (hClose : Context.getRangeForEdit
        (CharSourceRange.getCharRange Node.WhileLoc Node.WhileLoc) =
      some (CharSourceRange.getCharRange Node.WhileLoc Node.WhileLoc)) :
    loopEdits Context Node =
        [⟨CharSourceRange.getCharRange (stmtBegin Context Node.Body) (stmtBegin Context Node.Body),
            "\x7b", some EditMetadataKind.MarkerCall⟩,
          ⟨CharSourceRange.getCharRange Node.WhileLoc Node.WhileLoc, "\n\x7d", none⟩] ∧
      runLoopRule Context Node st =
        ⟨st.Replacements ++
          [⟨fileOf Context (stmtBegin Context Node.Body), offsetOf Context (stmtBegin Context Node.Body),
              0, "\x7b" ++ "marker_" ++
                toString (counterOf st.FileToNumberMarkerDecls
                  (fileOf Context (stmtBegin Context Node.Body))) ++ "();"⟩,
            ⟨fileOf Context Node.WhileLoc, offsetOf Context Node.WhileLoc, 0, "\n\x7d"⟩],
          (postIncrement st.FileToNumberMarkerDecls
            (fileOf Context (stmtBegin Context Node.Body))).2⟩ := by
  have hm : instrumentLoop Context.SM Node =
      some ([("body", DynTypedNode.stmt Node.Body), ("dostmt", DynTypedNode.loop Node)],
        editList doWhileAction) := by
    simp [instrumentLoop, compoundMatcher, hBare, nonCompoundDoWhileMatcher, hDo, hLoc]
  have hs : statementWithMacrosExpanded "body"
      ⟨[("body", DynTypedNode.stmt Node.Body), ("dostmt", DynTypedNode.loop Node)], Context⟩ =
      .ok (stmtRange Context Node.Body) := by
    simp [statementWithMacrosExpanded, getNode, stmtRange, List.lookup]
  have hw : doStmtWhile "dostmt"
      ⟨[("body", DynTypedNode.stmt Node.Body), ("dostmt", DynTypedNode.loop Node)], Context⟩ =
      .ok (Context.SM.getExpansionRange
        (CharSourceRange.getTokenRange Node.WhileLoc Node.WhileLoc)) := by
    simp +decide [doStmtWhile, getNode, List.lookup, DynTypedNode.getDoStmt, hDo]
  have ha : editList doWhileAction
      ⟨[("body", DynTypedNode.stmt Node.Body), ("dostmt", DynTypedNode.loop Node)], Context⟩ =
      .ok [⟨CharSourceRange.getCharRange (stmtBegin Context Node.Body) (stmtBegin Context Node.Body),
            "\x7b", some EditMetadataKind.MarkerCall⟩,
          ⟨CharSourceRange.getCharRange Node.WhileLoc Node.WhileLoc, "\n\x7d", none⟩] := by
    have hBefore2 : Context.getRangeForEdit
        (CharSourceRange.getCharRange (stmtRange Context Node.Body).Begin
          (stmtRange Context Node.Body).Begin) =
        some (CharSourceRange.getCharRange (stmtBegin Context Node.Body)
          (stmtBegin Context Node.Body)) := hBefore
    simp [editList, doWhileAction, translateEdits, addMarker, withMetadata, insertBefore,
      changeTo, before, hs, hw, hWhile, hBefore2, hClose]
  constructor
  · simp [loopEdits, hm, hParse, ha]
  · simp only [runLoopRule, hm, RuleActionEditCollector.run, hParse, ha]
    simp [collectEdit, isMarker, ofRange_empty, filename_empty,
      (postIncrement_counterOf _ _).1]

theorem doExample_text (k : Nat) :
    applyAllReplacements "do x(); while(cond);"
        (runLoopRule (textContext "do x(); while(cond);" []) doExample
          ⟨[], [("main.c", k)]⟩).Replacements =
      "do \x7bmarker_" ++ toString k ++ "();x(); \n\x7dwhile(cond);" := by
  have h := (doWhile_core (textContext "do x(); while(cond);" []) doExample ⟨[], [("main.c", k)]⟩
    (by decide) (by decide) (by decide) (by decide) (by decide) (by decide) (by decide)).2
  have hb : fileOf (textContext "do x(); while(cond);" [])
      (stmtBegin (textContext "do x(); while(cond);" []) doExample.Body) = "main.c" := by decide
  have he : fileOf (textContext "do x(); while(cond);" []) doExample.WhileLoc = "main.c" := by
    decide
  have hob : offsetOf (textContext "do x(); while(cond);" [])
      (stmtBegin (textContext "do x(); while(cond);" []) doExample.Body) =
        "do ".data.length := by decide
  have hoe : offsetOf (textContext "do x(); while(cond);" []) doExample.WhileLoc =
      "do ".data.length + "x(); ".data.length := by decide
  have hk : counterOf [("main.c", k)] "main.c" = k := by simp [counterOf]
  rw [h, hb, he, hob, hoe, hk]
  have ht : ("do x(); while(cond);" : String) =
      ⟨"do ".data ++ "x(); ".data ++ "while(cond);".data⟩ := by decide
  rw [ht]
  simp only [List.nil_append]
  rw [applyAll_wrap]
  apply String.ext
  simp [String.data_append, List.append_assoc]

/-- C4: for a do-while statement with a bare body whose `do` and `while`
keywords are in the primary file and not macro-generated (no parse error
recorded, insertion points editable), the loop rule yields exactly two
edits: the insertion of the opening brace, to which the collector appends
the call `marker_k();`, at the begin of the range selected for the body
(the begin of the body whenever the range extension keeps it), and a
zero-length insertion of a newline with the closing brace at the location of
the `while` keyword itself, whatever the end of the body's own range is; one
marker number is consumed.  On `do x(); while(cond);` the result is, token
for token, the C text `do { marker_k(); x(); } while(cond);`, the closing
brace standing immediately before `while`. -/
theorem instrumentLoop_bare_doWhile (Context : ASTContext) (Node : LoopStmt)
    (st : CollectorState)
    (hParse : Context.hasErrorOccurred = false)
    (hDo : Node.cls = StmtClass.DoStmt)
    (hBare : Node.Body.cls ≠ StmtClass.CompoundStmt)
    (hLoc : DoAndWhileNotMacroAndInMain Context.SM Node = true)
    (hWhile : (Context.SM.getExpansionRange
        (CharSourceRange.getTokenRange Node.WhileLoc Node.WhileLoc)).Begin = Node.WhileLoc)
    (hBefore : Context.getRangeForEdit
        (CharSourceRange.getCharRange (stmtBegin Context Node.Body) (stmtBegin Context Node.Body)) =
      some (CharSourceRange.getCharRange (stmtBegin Context Node.Body) (stmtBegin Context Node.Body)))
    (hClose : Context.getRangeForEdit
        (CharSourceRange.getCharRange Node.WhileLoc Node.WhileLoc) =
      some (CharSourceRange.getCharRange Node.WhileLoc Node.WhileLoc)) :
    loopEdits Context Node =
        [⟨CharSourceRange.getCharRange (stmtBegin Context Node.Body) (stmtBegin Context Node.Body),
            "\x7b", some EditMetadataKind.MarkerCall⟩,
          ⟨CharSourceRange.getCharRange Node.WhileLoc Node.WhileLoc, "\n\x7d", none⟩] ∧
    (runLoopRule Context Node st).Replacements =
        st.Replacements ++
          [⟨fileOf Context (stmtBegin Context Node.Body), offsetOf Context (stmtBegin Context Node.Body),
              0, "\x7b" ++ "marker_" ++
                toString (counterOf st.FileToNumberMarkerDecls
                  (fileOf Context (stmtBegin Context Node.Body))) ++ "();"⟩,
            ⟨fileOf Context Node.WhileLoc, offsetOf Context Node.WhileLoc, 0, "\n\x7d"⟩] ∧
    counterOf (runLoopRule Context Node st).FileToNumberMarkerDecls
        (fileOf Context (stmtBegin Context Node.Body)) =
      counterOf st.FileToNumberMarkerDecls (fileOf Context (stmtBegin Context Node.Body)) + 1 ∧
    (∀ (pre S post : List Char) (k : Nat) (f g : String),
      applyAllReplacements ⟨pre ++ S ++ post⟩
          [⟨f, pre.length, 0, "\x7b" ++ "marker_" ++ toString k ++ "();"⟩,
            ⟨g, pre.length + S.length, 0, "\n\x7d"⟩] =
        ⟨pre ++ ("\x7b" ++ "marker_" ++ toString k ++ "();").data ++ S ++ "\n\x7d".data ++ post⟩) ∧
    (∀ p : SourceLocation,
      handleReturnStmts (DynTypedNode.stmt Node.Body)
          (Context.SM.getExpansionRange
            (CharSourceRange.getTokenRange Node.Body.BeginLoc Node.Body.EndLoc)).End Context.SM =
        (Context.SM.getExpansionRange
          (CharSourceRange.getTokenRange Node.Body.BeginLoc Node.Body.EndLoc)).End →
      Context.maybeExtendRange
          (Context.SM.getExpansionRange
            (CharSourceRange.getTokenRange Node.Body.BeginLoc Node.Body.EndLoc))
          TokenKind.comment =
        Context.SM.getExpansionRange
          (CharSourceRange.getTokenRange Node.Body.BeginLoc Node.Body.EndLoc) →
      Context.maybeExtendRange
          (Context.SM.getExpansionRange
            (CharSourceRange.getTokenRange Node.Body.BeginLoc Node.Body.EndLoc))
          TokenKind.semi =
        CharSourceRange.getTokenRange
          (Context.SM.getExpansionRange
            (CharSourceRange.getTokenRange Node.Body.BeginLoc Node.Body.EndLoc)).Begin p →
      Context.SM.getExpansionRange (CharSourceRange.getTokenRange
          (Context.SM.getExpansionRange
            (CharSourceRange.getTokenRange Node.Body.BeginLoc Node.Body.EndLoc)).Begin p) =
        CharSourceRange.getTokenRange
          (Context.SM.getExpansionRange
            (CharSourceRange.getTokenRange Node.Body.BeginLoc Node.Body.EndLoc)).Begin p →
      stmtBegin Context Node.Body =
        (Context.SM.getExpansionRange
          (CharSourceRange.getTokenRange Node.Body.BeginLoc Node.Body.EndLoc)).Begin) ∧
    (∀ k : Nat,
      applyAllReplacements "do x(); while(cond);"
          (runLoopRule (textContext "do x(); while(cond);" []) doExample
            ⟨[], [("main.c", k)]⟩).Replacements =
        "do \x7bmarker_" ++ toString k ++ "();x(); \n\x7dwhile(cond);" ∧
      ctokens ("do \x7bmarker_" ++ toString k ++ "();x(); \n\x7dwhile(cond);") =
        ctokens ("do \x7b marker_" ++ toString k ++ "(); x(); \x7d while(cond);")) := by
  obtain ⟨h1, h2⟩ :=
    doWhile_core Context Node st hParse hDo hBare hLoc hWhile hBefore hClose
  refine ⟨h1, by rw [h2], ?_, ?_, ?_, ?_⟩
  · rw [h2]
    exact (postIncrement_counterOf _ _).2.1
  · intro pre S post k f g
    exact applyAll_wrap pre S post f g _ _
  · intro p e1 e2 e3 e4
    exact (stmtRange_semi Context Node.Body p e1 e2 e3 e4).1
  · intro k
    refine ⟨doExample_text k, ?_⟩
    apply ctokens_marker _ _ _ _ k "marker_".data
    · decide
    · decide
    · decide
    · intro cur
      simp +decide [ctokensAux]

/-- C4, at `do x(); while(cond);` in a primary file without macros: the two
edits are the insertions at offset 3 (the body) and offset 8 (the keyword
`while`). -/
theorem instrumentLoop_bare_doWhile_witness :
    loopEdits (textContext "do x(); while(cond);" []) doExample =
      [⟨CharSourceRange.getCharRange ⟨3⟩ ⟨3⟩, "\x7b", some EditMetadataKind.MarkerCall⟩,
        ⟨CharSourceRange.getCharRange ⟨8⟩ ⟨8⟩, "\n\x7d", none⟩] :=
  (instrumentLoop_bare_doWhile (textContext "do x(); while(cond);" []) doExample ⟨[], []⟩
    (by decide) (by decide) (by decide) (by decide) (by decide) (by decide) (by decide)).1

theorem InstrumentCStmt_ok (Result : MatchResult) (id : String) (S : Stmt)
    (h : Result.Nodes.lookup id = some (DynTypedNode.stmt S))
    (hc : S.cls = StmtClass.CompoundStmt)
    (hE : ∀ T ∈ blockEdits S, Result.Context.getRangeForEdit T.Range = some T.Range) :
    edit (InstrumentCStmt id) Result = .ok (blockEdits S) := by
  have hE1 := hE _ (List.mem_cons_self _ _)
  simp only at hE1
  have hB : (CharSourceRange.getCharRange (S.BeginLoc.getLocWithOffset 1) S.EndLoc).Begin =
      S.BeginLoc.getLocWithOffset 1 := rfl
  simp [InstrumentCStmt, edit, editList, translateEdits, addMarker, withMetadata, insertBefore,
    changeTo, before, statements, getNode, h, DynTypedNode.getCompoundStmt, hc, hB, hE1,
    blockEdits]

theorem InstrumentNonCStmt_wrap (Result : MatchResult) (id : String) (S : Stmt)
    (h : Result.Nodes.lookup id = some (DynTypedNode.stmt S))
    (hE : ∀ T ∈ wrapEdits Result.Context S,
      Result.Context.getRangeForEdit T.Range = some T.Range) :
    InstrumentNonCStmt id Result = .ok (wrapEdits Result.Context S) :=
  InstrumentNonCStmt_ok Result id S h (hE _ (List.mem_cons_self _ _))
    (hE _ (List.mem_cons_of_mem _ (List.mem_cons_self _ _)))

theorem ifBound_block (Result : MatchResult) (id : String) (o : Option Stmt)
    (h : Result.Nodes.lookup id = o.map DynTypedNode.stmt)
    (hc : ∀ S, o = some S → S.cls = StmtClass.CompoundStmt)
    (hE : ∀ T ∈ optEdits blockEdits o, Result.Context.getRangeForEdit T.Range = some T.Range) :
    ifBound id (edit (InstrumentCStmt id)) noEdits Result = .ok (optEdits blockEdits o) := by
  cases o with
  | none =>
    simp only [Option.map_none'] at h
    simp [ifBound, isBound, h, noEdits, optEdits]
  | some S =>
    simp only [Option.map_some'] at h
    simp only [ifBound, isBound, h, Option.isSome_some, if_true, optEdits]
    exact InstrumentCStmt_ok Result id S h (hc S rfl) hE

theorem ifBound_wrap (Result : MatchResult) (id : String) (o : Option Stmt)
    (h : Result.Nodes.lookup id = o.map DynTypedNode.stmt)
    (hE : ∀ T ∈ optEdits (wrapEdits Result.Context) o,
      Result.Context.getRangeForEdit T.Range = some T.Range) :
    ifBound id (InstrumentNonCStmt id) noEdits Result =
      .ok (optEdits (wrapEdits Result.Context) o) := by
  cases o with
  | none =>
    simp only [Option.map_none'] at h
    simp [ifBound, isBound, h, noEdits, optEdits]
  | some S =>
    simp only [Option.map_some'] at h
    simp only [ifBound, isBound, h, Option.isSome_some, if_true, optEdits]
    exact InstrumentNonCStmt_wrap Result id S h hE

theorem matcher_lookups (SM : SourceManager) (Node : IfStmt) :
    (elseBindings SM Node ++ thenBindings SM Node).lookup "cthen" =
        (thenBlock SM Node).map DynTypedNode.stmt ∧
      (elseBindings SM Node ++ thenBindings SM Node).lookup "celse" =
        (elseBlock SM Node).map DynTypedNode.stmt ∧
      (elseBindings SM Node ++ thenBindings SM Node).lookup "then" =
        (thenBare SM Node).map DynTypedNode.stmt ∧
      (elseBindings SM Node ++ thenBindings SM Node).lookup "else" =
        (elseBare SM Node).map DynTypedNode.stmt := by
  cases hElse : Node.Else with
  | none =>
    by_cases ht : Node.Then.cls = StmtClass.CompoundStmt ∧
        inMainAndNotMacro SM Node.Then = true <;>
      simp +decide [elseBindings, thenBindings, thenBlock, thenBare, elseBlock, elseBare, hElse,
        ht, List.lookup]
  | some E =>
    by_cases ht : Node.Then.cls = StmtClass.CompoundStmt ∧
        inMainAndNotMacro SM Node.Then = true <;>
      by_cases he : E.cls = StmtClass.CompoundStmt ∧ inMainAndNotMacro SM E = true <;>
      by_cases hk : ElseNotInMacroAndInMain SM Node = true <;>
      simp +decide [elseBindings, thenBindings, thenBlock, thenBare, elseBlock, elseBare, hElse,
        ht, he, hk, List.lookup]

theorem ifRule_general (Context : ASTContext) (Node : IfStmt) (st : CollectorState)
    (hParen : RParenNotInMacroAndInMain Context.SM Node = true)
    (hParse : Context.hasErrorOccurred = false)
    (hE : ∀ T ∈ expectedIfEdits Context Node, Context.getRangeForEdit T.Range = some T.Range) :
    ifEdits Context Node = expectedIfEdits Context Node ∧
      runIfRule Context Node st = (expectedIfEdits Context Node).foldl (collectEdit Context) st := by
  have hm : instrumentIfStmt_matcher Context.SM Node =
      some (elseBindings Context.SM Node ++ thenBindings Context.SM Node) := by
    simp [instrumentIfStmt_matcher, hParen]
  obtain ⟨l1, l2, l3, l4⟩ := matcher_lookups Context.SM Node
  have c1 : ∀ S, thenBlock Context.SM Node = some S → S.cls = StmtClass.CompoundStmt := by
    intro S hS
    by_cases ht : Node.Then.cls = StmtClass.CompoundStmt ∧
        inMainAndNotMacro Context.SM Node.Then = true
    · simp only [thenBlock, if_pos ht, Option.some.injEq] at hS
      rw [← hS]; exact ht.1
    · simp [thenBlock, if_neg ht] at hS
  have c2 : ∀ S, elseBlock Context.SM Node = some S → S.cls = StmtClass.CompoundStmt := by
    intro S hS
    cases hElse : Node.Else with
    | none => simp [elseBlock, hElse] at hS
    | some E =>
      by_cases he : E.cls = StmtClass.CompoundStmt ∧ inMainAndNotMacro Context.SM E = true
      · simp only [elseBlock, hElse, if_pos he, Option.some.injEq] at hS
        rw [← hS]; exact he.1
      · simp [elseBlock, hElse, if_neg he] at hS
  have e1 := ifBound_block
    ⟨elseBindings Context.SM Node ++ thenBindings Context.SM Node, Context⟩ "cthen" _ l1 c1
    (fun T hT => hE T (by simp only [expectedIfEdits, List.mem_append]; tauto))
  have e2 := ifBound_block
    ⟨elseBindings Context.SM Node ++ thenBindings Context.SM Node, Context⟩ "celse" _ l2 c2
    (fun T hT => hE T (by simp only [expectedIfEdits, List.mem_append]; tauto))
  have e3 := ifBound_wrap
    ⟨elseBindings Context.SM Node ++ thenBindings Context.SM Node, Context⟩ "then" _ l3
    (fun T hT => hE T (by simp only [expectedIfEdits, List.mem_append]; tauto))
  have e4 := ifBound_wrap
    ⟨elseBindings Context.SM Node ++ thenBindings Context.SM Node, Context⟩ "else" _ l4
    (fun T hT => hE T (by simp only [expectedIfEdits, List.mem_append]; tauto))
  have ha : instrumentIfStmt_actions
      ⟨elseBindings Context.SM Node ++ thenBindings Context.SM Node, Context⟩ =
      .ok (expectedIfEdits Context Node) := by
    simp only [instrumentIfStmt_actions, flattenVector, flattenLoop, e1, e2, e3, e4,
      expectedIfEdits, List.nil_append]
  constructor
  · simp [ifEdits, hm, hParse, ha]
  · simp [runIfRule, hm, RuleActionEditCollector.run, hParse, ha]

/-- C7 (counterexample): in `if (c) FOO; else BAR;` both branches begin and
end inside macro expansions, yet the if rule yields edits for each of them:
each macro invocation is wrapped in braces with a marker call. -/
theorem instrumentIfStmt_macro_branches :
    macroIfExample.Then.BeginLoc.isMacroID = true ∧
    macroIfExample.Then.EndLoc.isMacroID = true ∧
    macroIfExample.Else = some ⟨StmtClass.Other, ⟨2 ^ 31 + 8⟩, ⟨2 ^ 31 + 12⟩, false⟩ ∧
    (⟨2 ^ 31 + 8⟩ : SourceLocation).isMacroID = true ∧
    ifEdits macroIfContext macroIfExample =
      [⟨CharSourceRange.getCharRange ⟨7⟩ ⟨7⟩, "\x7b", some EditMetadataKind.MarkerCall⟩,
        ⟨CharSourceRange.getCharRange ⟨11⟩ ⟨11⟩, "\n\x7d", none⟩,
        ⟨CharSourceRange.getCharRange ⟨17⟩ ⟨17⟩, "\x7b", some EditMetadataKind.MarkerCall⟩,
        ⟨CharSourceRange.getCharRange ⟨21⟩ ⟨21⟩, "\n\x7d", none⟩] ∧
    applyAllReplacements "if (c) FOO; else BAR;"
        (runIfRule macroIfContext macroIfExample ⟨[], []⟩).Replacements =
      "if (c) \x7bmarker_0();FOO;\n\x7d else \x7bmarker_1();BAR;\n\x7d" := by
  decide

/-- C7 (amended): the if rule produces no edit at all when the closing
parenthesis of the condition is inside a macro expansion or outside the
primary file.  Otherwise, with no parse error recorded and the insertion
points editable, each branch is handled on its own: a branch that is an
eligible block (a compound statement whose begin and end are outside macro
expansions and whose begin is in the primary file) gets the marker right
after its opening brace; a then-branch that is not an eligible block is
wrapped in braces with a marker at the range selected for it, macro-touched
or not; an else-branch that is not an eligible block is wrapped likewise
when the `else` keyword is outside macro expansions and in the primary file,
and is skipped otherwise, the edits then being those of the same if
statement without else. -/
theorem instrumentIfStmt_branch_guards (Context : ASTContext) (Node : IfStmt)
    (st : CollectorState) :
    (RParenNotInMacroAndInMain Context.SM Node = false →
      ifEdits Context Node = [] ∧ runIfRule Context Node st = st) ∧
    (∀ E, Node.Else = some E →
      ¬ (E.cls = StmtClass.CompoundStmt ∧ inMainAndNotMacro Context.SM E = true) →
      ElseNotInMacroAndInMain Context.SM Node = false →
        ifEdits Context Node = ifEdits Context { Node with Else := none } ∧
          runIfRule Context Node st = runIfRule Context { Node with Else := none } st) ∧
    (∀ Nodes, instrumentIfStmt_matcher Context.SM Node = some Nodes →
      Nodes.lookup "cthen" =
          (if Node.Then.cls = StmtClass.CompoundStmt ∧
              inMainAndNotMacro Context.SM Node.Then = true
            then some (DynTypedNode.stmt Node.Then) else none) ∧
        Nodes.lookup "then" =
          (if Node.Then.cls = StmtClass.CompoundStmt ∧
              inMainAndNotMacro Context.SM Node.Then = true
            then none else some (DynTypedNode.stmt Node.Then)) ∧
        (∀ E, Node.Else = some E →
          Nodes.lookup "celse" =
              (if E.cls = StmtClass.CompoundStmt ∧ inMainAndNotMacro Context.SM E = true
                then some (DynTypedNode.stmt E) else none) ∧
            Nodes.lookup "else" =
              (if E.cls = StmtClass.CompoundStmt ∧ inMainAndNotMacro Context.SM E = true
                then none
                else if ElseNotInMacroAndInMain Context.SM Node = true
                  then some (DynTypedNode.stmt E) else none))) ∧
    (RParenNotInMacroAndInMain Context.SM Node = true → Node.Else = none →
      ¬ (Node.Then.cls = StmtClass.CompoundStmt ∧
        inMainAndNotMacro Context.SM Node.Then = true) →
      Context.hasErrorOccurred = false →
      Context.getRangeForEdit
          (CharSourceRange.getCharRange (stmtBegin Context Node.Then)
            (stmtBegin Context Node.Then)) =
        some (CharSourceRange.getCharRange (stmtBegin Context Node.Then)
          (stmtBegin Context Node.Then)) →
      Context.getRangeForEdit
          (CharSourceRange.getCharRange (stmtEnd Context Node.Then)
            (stmtEnd Context Node.Then)) =
        some (CharSourceRange.getCharRange (stmtEnd Context Node.Then)
          (stmtEnd Context Node.Then)) →
      ifEdits Context Node =
        [⟨CharSourceRange.getCharRange (stmtBegin Context Node.Then) (stmtBegin Context Node.Then),
            "\x7b", some EditMetadataKind.MarkerCall⟩,
          ⟨CharSourceRange.getCharRange (stmtEnd Context Node.Then) (stmtEnd Context Node.Then),
            "\n\x7d", none⟩]) ∧
    (RParenNotInMacroAndInMain Context.SM Node = true →
      Context.hasErrorOccurred = false →
      (∀ T ∈ expectedIfEdits Context Node,
        Context.getRangeForEdit T.Range = some T.Range) →
      ifEdits Context Node =
          optEdits blockEdits (thenBlock Context.SM Node) ++
            optEdits blockEdits (elseBlock Context.SM Node) ++
            optEdits (wrapEdits Context) (thenBare Context.SM Node) ++
            optEdits (wrapEdits Context) (elseBare Context.SM Node) ∧
        runIfRule Context Node st =
          (expectedIfEdits Context Node).foldl (collectEdit Context) st) := by
  refine ⟨?_, ?_, ?_, ?_, ?_⟩
  rotate_left 3
  · intro hParen hElse hBlock hParse hBefore hAfter
    exact (ifRule_bare_core Context Node st hParse hParen hElse hBlock hBefore hAfter).1
  · intro hParen hParse hE
    exact ifRule_general Context Node st hParen hParse hE
  · intro h
    simp [ifEdits, runIfRule, instrumentIfStmt_matcher, h]
  · intro E hE hblock helse
    have hb : elseBindings Context.SM Node = [] := by
      simp only [elseBindings, hE, helse]
      simp [hblock]
    have hm : instrumentIfStmt_matcher Context.SM Node =
        instrumentIfStmt_matcher Context.SM { Node with Else := none } := by
      simp only [instrumentIfStmt_matcher, hb]
      rfl
    simp only [ifEdits, runIfRule, hm]
    exact ⟨trivial, trivial⟩
  · intro Nodes hN
    by_cases hP : RParenNotInMacroAndInMain Context.SM Node = true
    · simp only [instrumentIfStmt_matcher, hP, if_true, Option.some.injEq] at hN
      subst hN
      refine ⟨?_, ?_, ?_⟩
      · cases hElse : Node.Else with
        | none =>
          by_cases ht : Node.Then.cls = StmtClass.CompoundStmt ∧
              inMainAndNotMacro Context.SM Node.Then = true
          · simp +decide [elseBindings, thenBindings, hElse, ht, List.lookup]
          · simp +decide [elseBindings, thenBindings, hElse, ht, List.lookup]
        | some E =>
          by_cases ht : Node.Then.cls = StmtClass.CompoundStmt ∧
              inMainAndNotMacro Context.SM Node.Then = true <;>
            by_cases he : E.cls = StmtClass.CompoundStmt ∧
              inMainAndNotMacro Context.SM E = true <;>
            by_cases hk : ElseNotInMacroAndInMain Context.SM Node = true <;>
            simp +decide [elseBindings, thenBindings, hElse, ht, he, hk, List.lookup]
      · cases hElse : Node.Else with
        | none =>
          by_cases ht : Node.Then.cls = StmtClass.CompoundStmt ∧
              inMainAndNotMacro Context.SM Node.Then = true
          · simp +decide [elseBindings, thenBindings, hElse, ht, List.lookup]
          · simp +decide [elseBindings, thenBindings, hElse, ht, List.lookup]
        | some E =>
          by_cases ht : Node.Then.cls = StmtClass.CompoundStmt ∧
              inMainAndNotMacro Context.SM Node.Then = true <;>
            by_cases he : E.cls = StmtClass.CompoundStmt ∧
              inMainAndNotMacro Context.SM E = true <;>
            by_cases hk : ElseNotInMacroAndInMain Context.SM Node = true <;>
            simp +decide [elseBindings, thenBindings, hElse, ht, he, hk, List.lookup]
      · intro E hElse
        by_cases ht : Node.Then.cls = StmtClass.CompoundStmt ∧
            inMainAndNotMacro Context.SM Node.Then = true <;>
          by_cases he : E.cls = StmtClass.CompoundStmt ∧
            inMainAndNotMacro Context.SM E = true <;>
          by_cases hk : ElseNotInMacroAndInMain Context.SM Node = true <;>
          simp +decide [elseBindings, thenBindings, hElse, ht, he, hk, List.lookup]
    · simp [instrumentIfStmt_matcher, hP] at hN

/-- C7 (amended), at `if (c) FOO; else BAR;`: with the `else` keyword taken
from a macro expansion the else branch is skipped, the edits being those of
the statement without its else; with the `else` keyword in the file both
macro-touched branches are wrapped, at offsets 7 to 11 and 17 to 21. -/
theorem instrumentIfStmt_branch_guards_witness :
    ifEdits macroIfContext { macroIfExample with ElseLoc := ⟨2 ^ 31 + 16⟩ } =
        ifEdits macroIfContext { macroIfExample with ElseLoc := ⟨2 ^ 31 + 16⟩, Else := none } ∧
    (expectedIfEdits macroIfContext macroIfExample =
        [⟨CharSourceRange.getCharRange ⟨7⟩ ⟨7⟩, "\x7b", some EditMetadataKind.MarkerCall⟩,
          ⟨CharSourceRange.getCharRange ⟨11⟩ ⟨11⟩, "\n\x7d", none⟩,
          ⟨CharSourceRange.getCharRange ⟨17⟩ ⟨17⟩, "\x7b", some EditMetadataKind.MarkerCall⟩,
          ⟨CharSourceRange.getCharRange ⟨21⟩ ⟨21⟩, "\n\x7d", none⟩] ∧
      ifEdits macroIfContext macroIfExample =
        optEdits blockEdits (thenBlock macroIfContext.SM macroIfExample) ++
          optEdits blockEdits (elseBlock macroIfContext.SM macroIfExample) ++
          optEdits (wrapEdits macroIfContext) (thenBare macroIfContext.SM macroIfExample) ++
          optEdits (wrapEdits macroIfContext) (elseBare macroIfContext.SM macroIfExample)) :=
  ⟨((instrumentIfStmt_branch_guards macroIfContext
      { macroIfExample with ElseLoc := ⟨2 ^ 31 + 16⟩ } ⟨[], []⟩).2.1
      ⟨StmtClass.Other, ⟨2 ^ 31 + 8⟩, ⟨2 ^ 31 + 12⟩, false⟩ rfl (by decide) (by decide)).1,
    by decide,
    ((instrumentIfStmt_branch_guards macroIfContext macroIfExample ⟨[], []⟩).2.2.2.2
      (by decide) (by decide) (by decide)).1⟩

/-! ## Theorems: the Global-to-Static pass -/

/-- C5 (counterexample): the C++ declaration `const int x = 1;` has internal
linkage and the member function `void f() {}` of `struct S` is not at file
scope, so both are outside the stated condition, yet each receives the
edit; and the text inserted before `int x = 1;` is `" static "` with a
leading space, not exactly `"static "`. -/
theorem globalizeRule_differs :
    (specGlobalizes internalConstExample = false ∧
      globalizeEdits (textContext "const int x = 1;" []) internalConstExample =
        [⟨CharSourceRange.getCharRange ⟨0⟩ ⟨0⟩, " static ", none⟩]) ∧
    (specGlobalizes methodExample = false ∧
      globalizeEdits (textContext "struct S \x7b void f() \x7b\x7d \x7d;" []) methodExample =
        [⟨CharSourceRange.getCharRange ⟨11⟩ ⟨11⟩, " static ", none⟩]) ∧
    (specGlobalizes globalExample = true ∧
      globalizeReplacements (textContext "int x = 1;" []) globalExample =
        [⟨"main.c", 0, 0, " static "⟩] ∧
      (" static " : String) ≠ "static ") := by
  decide

/-- The definition `extern int f(void) { return 0; }` receives the edit as
well: the matcher excludes `extern` for variables only. -/
theorem globalizeRule_extern_function :
    isExtern externFunctionExample = true ∧
    globalizeEdits (textContext "extern int f(void) \x7b return 0; \x7d" [])
        externFunctionExample =
      [⟨CharSourceRange.getCharRange ⟨0⟩ ⟨0⟩, " static ", none⟩] := by
  decide

theorem globalize_core (Context : ASTContext) (D : Decl)
    (hParse : Context.hasErrorOccurred = false)
    (hBegin : (Context.maybeExtendRange
        (CharSourceRange.getTokenRange D.BeginLoc D.EndLoc) TokenKind.semi).Begin = D.BeginLoc)
    (hEdit : Context.getRangeForEdit (CharSourceRange.getCharRange D.BeginLoc D.BeginLoc) =
      some (CharSourceRange.getCharRange D.BeginLoc D.BeginLoc)) :
    globalizeEdits Context D =
      if ((D.kind = DeclKind.Var ∧ D.hasGlobalStorage = true ∧ isExtern D = false ∧
              isStaticStorageClass D = false) ∨
            (D.kind = DeclKind.Function ∧ D.isDefinition = true ∧ D.isMain = false ∧
              isStaticStorageClass D = false)) ∧
          isExpansionInMainFile Context.SM D.BeginLoc = true then
        [⟨CharSourceRange.getCharRange D.BeginLoc D.BeginLoc, " static ", none⟩]
      else [] := by
  by_cases hc : ((D.kind = DeclKind.Var ∧ D.hasGlobalStorage = true ∧ isExtern D = false ∧
              isStaticStorageClass D = false) ∨
            (D.kind = DeclKind.Function ∧ D.isDefinition = true ∧ D.isMain = false ∧
              isStaticStorageClass D = false)) ∧
          isExpansionInMainFile Context.SM D.BeginLoc = true
  · have hm : globalizeRule_matcher Context.SM D = some [("global", DynTypedNode.decl D)] := by
      simp only [globalizeRule_matcher, if_pos hc]
    have he : globalizeRule_edits ⟨[("global", DynTypedNode.decl D)], Context⟩ =
        .ok [⟨CharSourceRange.getCharRange D.BeginLoc D.BeginLoc, " static ", none⟩] := by
      simp [globalizeRule_edits, edit, editList, translateEdits, insertBefore, changeTo, before,
        node, getNode, List.lookup, DynTypedNode.getSourceRange, hBegin, hEdit]
    simp only [globalizeEdits, hm, hParse, he, if_pos hc]
    rfl
  · have hm : globalizeRule_matcher Context.SM D = none := by
      simp only [globalizeRule_matcher, if_neg hc]
    simp only [globalizeEdits, hm, if_neg hc]

theorem applyAll_insert (pre post : List Char) (f : String) (Text : String) :
    applyAllReplacements ⟨pre ++ post⟩ [⟨f, pre.length, 0, Text⟩] =
      ⟨pre ++ Text.data ++ post⟩ := by
  simp [applyAllReplacements, reverseSourceOrder, applyReplacement]

/-- C5 (amended): for a declaration in a context free of parse errors whose
begin is an editable location (function definitions carrying an explicit
`extern` specifier being left aside), `globalizeRule` produces an edit if and
only if the declaration begins in the primary file, is not already `extern`
or `static`, and is a variable with global storage or a function definition
other than `main`; the edit is then the single zero-length insertion of the
text `" static "` (with a leading space) at the begin of the declaration, so
that `int x = 1;` becomes ` static int x = 1;`, which is token for token
`static int x = 1;`. -/
theorem globalizeRule_static_insertion (Context : ASTContext) (D : Decl)
    (hParse : Context.hasErrorOccurred = false)
    (hBegin : (Context.maybeExtendRange
        (CharSourceRange.getTokenRange D.BeginLoc D.EndLoc) TokenKind.semi).Begin = D.BeginLoc)
    (hEdit : Context.getRangeForEdit (CharSourceRange.getCharRange D.BeginLoc D.BeginLoc) =
      some (CharSourceRange.getCharRange D.BeginLoc D.BeginLoc))
    (hFn : D.kind = DeclKind.Function → isExtern D = false) :
    (globalizeEdits Context D ≠ [] ↔
      (isExpansionInMainFile Context.SM D.BeginLoc = true ∧ isExtern D = false ∧
        isStaticStorageClass D = false ∧
        ((D.kind = DeclKind.Var ∧ D.hasGlobalStorage = true) ∨
          (D.kind = DeclKind.Function ∧ D.isDefinition = true ∧ D.isMain = false)))) ∧
    (globalizeEdits Context D ≠ [] →
      globalizeEdits Context D =
          [⟨CharSourceRange.getCharRange D.BeginLoc D.BeginLoc, " static ", none⟩] ∧
        globalizeReplacements Context D =
          [⟨fileOf Context D.BeginLoc, offsetOf Context D.BeginLoc, 0, " static "⟩]) ∧
    (∀ (pre post : List Char) (f : String),
      applyAllReplacements ⟨pre ++ post⟩ [⟨f, pre.length, 0, " static "⟩] =
        ⟨pre ++ " static ".data ++ post⟩) ∧
    (applyAllReplacements "int x = 1;"
        (globalizeReplacements (textContext "int x = 1;" []) globalExample) =
      " static int x = 1;" ∧
      ctokens " static int x = 1;" = ctokens "static int x = 1;") := by
  have hcore := globalize_core Context D hParse hBegin hEdit
  refine ⟨?_, ?_, ?_, by decide⟩
  · rw [hcore]
    constructor
    · intro h
      by_cases hc : ((D.kind = DeclKind.Var ∧ D.hasGlobalStorage = true ∧ isExtern D = false ∧
              isStaticStorageClass D = false) ∨
            (D.kind = DeclKind.Function ∧ D.isDefinition = true ∧ D.isMain = false ∧
              isStaticStorageClass D = false)) ∧
          isExpansionInMainFile Context.SM D.BeginLoc = true
      · obtain ⟨hk, hmain⟩ := hc
        rcases hk with ⟨h1, h2, h3, h4⟩ | ⟨h1, h2, h3, h4⟩
        · exact ⟨hmain, h3, h4, Or.inl ⟨h1, h2⟩⟩
        · exact ⟨hmain, hFn h1, h4, Or.inr ⟨h1, h2, h3⟩⟩
      · rw [if_neg hc] at h
        exact absurd rfl h
    · rintro ⟨hmain, hx, hs, hk⟩
      have hc : ((D.kind = DeclKind.Var ∧ D.hasGlobalStorage = true ∧ isExtern D = false ∧
              isStaticStorageClass D = false) ∨
            (D.kind = DeclKind.Function ∧ D.isDefinition = true ∧ D.isMain = false ∧
              isStaticStorageClass D = false)) ∧
          isExpansionInMainFile Context.SM D.BeginLoc = true := by
        rcases hk with ⟨h1, h2⟩ | ⟨h1, h2, h3⟩
        · exact ⟨Or.inl ⟨h1, h2, hx, hs⟩, hmain⟩
        · exact ⟨Or.inr ⟨h1, h2, h3, hs⟩, hmain⟩
      rw [if_pos hc]
      simp
  · intro h
    have he : globalizeEdits Context D =
        [⟨CharSourceRange.getCharRange D.BeginLoc D.BeginLoc, " static ", none⟩] := by
      rw [hcore] at h ⊢
      by_cases hc : ((D.kind = DeclKind.Var ∧ D.hasGlobalStorage = true ∧ isExtern D = false ∧
              isStaticStorageClass D = false) ∨
            (D.kind = DeclKind.Function ∧ D.isDefinition = true ∧ D.isMain = false ∧
              isStaticStorageClass D = false)) ∧
          isExpansionInMainFile Context.SM D.BeginLoc = true
      · rw [if_pos hc]
      · rw [if_neg hc] at h
        exact absurd rfl h
    refine ⟨he, ?_⟩
    simp [globalizeReplacements, he, ofRange_empty]
  · intro pre post f
    exact applyAll_insert pre post f _

/-- C5 (amended), at `int x = 1;` in a primary file: the declaration gets the
one insertion of `" static "` at offset 0. -/
theorem globalizeRule_static_insertion_witness :
    globalizeEdits (textContext "int x = 1;" []) globalExample =
        [⟨CharSourceRange.getCharRange ⟨0⟩ ⟨0⟩, " static ", none⟩] ∧
      globalizeReplacements (textContext "int x = 1;" []) globalExample =
        [⟨"main.c", 0, 0, " static "⟩] :=
  (globalizeRule_static_insertion (textContext "int x = 1;" []) globalExample
    (by decide) (by decide) (by decide) (by decide)).2.1 (by decide)

end dead
